import Mathlib

/-!
Verification of the CloudSim distributed-storage simulator.

Shallow embedding of:
* src/CloudSim/virtual_disk.py        (VirtualDisk: allocate/write/read/delete)
* src/CloudSim/network_manager.py     (message plumbing, only as far as the claims need)
* src/cloudTemplateProject/CloudSim/virtual_node.py
                                      (RPCService, VirtualNode RPC methods, distribute_file)

Modelling conventions:
* Python byte strings are `List Nat` (one entry per byte); the disk image file
  (disk.img) is a total function `Nat → Nat` from byte offset to byte value,
  initially all zeros (the image is created as a sparse, all-zero file).
* Python dicts are association lists `List (String × α)`; assignment replaces an
  existing binding in place or appends a fresh one, `del` removes the binding,
  exactly as insertion-ordered Python dicts behave.
* `hashlib.md5(...).hexdigest()` is an external library call; the development
  depends only on the digest being a deterministic function of the input bytes,
  so it is modelled by a concrete deterministic function of the bytes.
* Wall-clock values (`time.time()`) are integer parameters threaded explicitly.
-/

namespace CloudSim

/-- Python dict lookup `d.get(k)` / `k in d` on an insertion-ordered dict. -/
def dictFind? {α : Type} (d : List (String × α)) (k : String) : Option α :=
  match d with
  | [] => none
  | p :: rest => if p.1 = k then some p.2 else dictFind? rest k

/-- Python dict assignment `d[k] = v`: replace the existing binding in place,
or append a fresh binding at the end. -/
def dictInsert {α : Type} (d : List (String × α)) (k : String) (v : α) :
    List (String × α) :=
  match d with
  | [] => [(k, v)]
  | p :: rest =>
    if p.1 = k then (p.1, v) :: rest else p :: dictInsert rest k v

/-- Python `del d[k]`. -/
def dictErase {α : Type} (d : List (String × α)) (k : String) :
    List (String × α) :=
  match d with
  | [] => []
  | p :: rest => if p.1 = k then dictErase rest k else p :: dictErase rest k

/-- Models `hashlib.md5(data).hexdigest()` for a byte string: an uninterpreted
deterministic digest, rendered here as the decimal bytes joined by dots.  Every
use in the source only compares digests of byte strings for equality, so any
deterministic function is a faithful model. -/
def md5hex (data : List Nat) : String :=
  String.intercalate "." (data.map (fun b => toString b))

/-- Models `hashlib.md5(s.encode()).hexdigest()` for a text string. -/
def md5hexOfString (s : String) : String :=
  md5hex (s.toList.map (fun c => c.toNat))

/-! ## Virtual disk (src/CloudSim/virtual_disk.py) -/

/-- `BlockStatus` enum (virtual_disk.py lines 9-12). -/
inductive BlockStatus where
  | FREE
  | ALLOCATED
  | OCCUPIED
deriving DecidableEq

/-- `StorageBlock` dataclass (virtual_disk.py lines 14-21).  `checksum` is the
per-block md5 of the bytes last written to it. -/
structure StorageBlock where
  block_id : Nat
  start_offset : Nat
  size : Nat
  status : BlockStatus
  file_id : Option String
  checksum : Option String
deriving DecidableEq

/-- `VirtualFile` dataclass (virtual_disk.py lines 23-30). -/
structure VirtualFile where
  file_id : String
  filename : String
  size : Nat
  blocks : List Nat
  created_at : Nat
  checksum : String
deriving DecidableEq

/-- The in-memory state of a `VirtualDisk` (virtual_disk.py lines 32-54)
together with the contents of its backing image file disk.img.
The metadata snapshot file only mirrors this state, so it is not modelled
separately. -/
structure VirtualDisk where
  node_id : String
  capacity_bytes : Nat
  block_size : Nat
  total_blocks : Nat
  blocks : List StorageBlock
  files : List (String × VirtualFile)
  allocated_blocks : Nat
  used_storage : Nat
  image : Nat → Nat

/-- Used to model Python list indexing `self.blocks[block_id]`; every call site
in the source is reached only with an in-range index (the theorems carry the
corresponding validity hypotheses). -/
def defaultBlock : StorageBlock :=
  { block_id := 0, start_offset := 0, size := 0, status := BlockStatus.FREE,
    file_id := none, checksum := none }

/-- `self.blocks[block_id]`. -/
def getBlock (blocks : List StorageBlock) (bid : Nat) : StorageBlock :=
  (blocks.get? bid).getD defaultBlock

/-- `VirtualDisk.__init__` together with `_initialize_blocks`
(virtual_disk.py lines 33-54 and 78-88), taking the derived byte quantities
directly: `capacity_bytes = capacity_gb * 1024**3` and
`block_size = block_size_kb * 1024` are computed by `VirtualDisk.ofGbKb`. -/
def VirtualDisk.init (node_id : String) (capacity_bytes block_size : Nat) :
    VirtualDisk :=
  let total := capacity_bytes / block_size
  { node_id := node_id
    capacity_bytes := capacity_bytes
    block_size := block_size
    total_blocks := total
    blocks := (List.range total).map (fun i =>
      { block_id := i, start_offset := i * block_size, size := block_size,
        status := BlockStatus.FREE, file_id := none, checksum := none })
    files := []
    allocated_blocks := 0
    used_storage := 0
    image := fun _ => 0 }

/-- `VirtualDisk.__init__`'s unit conversions (virtual_disk.py lines 35-36). -/
def VirtualDisk.ofGbKb (node_id : String) (capacity_gb block_size_kb : Nat) :
    VirtualDisk :=
  VirtualDisk.init node_id (capacity_gb * 1024 * 1024 * 1024) (block_size_kb * 1024)

/-- The allocation loop of `allocate_storage` (virtual_disk.py lines 166-177):
walk the block list, turn the first `n` FREE blocks into ALLOCATED blocks owned
by `fid`, and collect their ids in order.  (Python materialises the filtered
list `free_blocks` first and then mutates its first `n` elements, which are
aliases into `self.blocks`; marking the first `n` FREE blocks during one walk
is the same transformation.) -/
def markAllocate (blocks : List StorageBlock) (n : Nat) (fid : String) :
    List StorageBlock × List Nat :=
  match blocks, n with
  | [], _ => ([], [])
  | bs, 0 => (bs, [])
  | b :: bs, Nat.succ m =>
    if b.status = BlockStatus.FREE then
      let rest := markAllocate bs m fid
      ({ b with status := BlockStatus.ALLOCATED, file_id := some fid } :: rest.1,
       b.block_id :: rest.2)
    else
      let rest := markAllocate bs (Nat.succ m) fid
      (b :: rest.1, rest.2)

/-- `VirtualDisk.allocate_storage` (virtual_disk.py lines 161-195).
Returns the Python return value and the successor state.  `now` stands for the
`time.time()` call used for `created_at`. -/
def VirtualDisk.allocate_storage (d : VirtualDisk) (file_id filename : String)
    (size : Nat) (now : Nat) : Option (List Nat) × VirtualDisk :=
  let required := (size + d.block_size - 1) / d.block_size
  let freeCount := (d.blocks.filter (fun b => b.status = BlockStatus.FREE)).length
  if freeCount < required then (none, d)
  else
    let marked := markAllocate d.blocks required file_id
    let file_checksum :=
      md5hexOfString (file_id ++ "-" ++ filename ++ "-" ++ toString size)
    let vf : VirtualFile :=
      { file_id := file_id, filename := filename, size := size,
        blocks := marked.2, created_at := now, checksum := file_checksum }
    (some marked.2,
     { d with
        blocks := marked.1
        files := dictInsert d.files file_id vf
        allocated_blocks := d.allocated_blocks + required
        used_storage := d.used_storage + size })

/-- Overwrite `len` consecutive image bytes starting at `pos` with `bytes`
(the `f.seek(...); f.write(...)` in `write_data`). -/
def writeRange (img : Nat → Nat) (pos : Nat) (bytes : List Nat) : Nat → Nat :=
  fun p =>
    if h : pos ≤ p ∧ p - pos < bytes.length then
      bytes.get ⟨p - pos, h.2⟩
    else img p

/-- Read `len` consecutive image bytes starting at `pos`
(the `f.seek(...); f.read(...)` in `read_data`). -/
def readRange (img : Nat → Nat) (pos len : Nat) : List Nat :=
  (List.range len).map (fun i => img (pos + i))

/-- The block loop of `write_data` (virtual_disk.py lines 209-228), recursing
over the file's owned block ids.  `data` is the not-yet-written suffix of the
original byte string (Python tracks the same information through the
`data_written` counter); `blockOffset` is nonzero only on the first iteration.
Returns the updated block table and image. -/
def writeLoop (bs : Nat) (table : List StorageBlock) (img : Nat → Nat)
    (ids : List Nat) (data : List Nat) (blockOffset : Nat) :
    List StorageBlock × (Nat → Nat) :=
  match ids with
  | [] => (table, img)
  | bid :: rest =>
    if data.length = 0 then (table, img)
    else
      let block := getBlock table bid
      let n := min data.length (bs - blockOffset)
      let written := data.take n
      let img' := writeRange img (block.start_offset + blockOffset) written
      let table' := table.set bid
        { block with status := BlockStatus.OCCUPIED,
                     checksum := some (md5hex written) }
      writeLoop bs table' img' rest (data.drop n) 0

/-- `VirtualDisk.write_data` (virtual_disk.py lines 197-231). -/
def VirtualDisk.write_data (d : VirtualDisk) (file_id : String)
    (data : List Nat) (offset : Nat) : Bool × VirtualDisk :=
  match dictFind? d.files file_id with
  | none => (false, d)
  | some vf =>
    let startBlock := offset / d.block_size
    let blockOffset := offset % d.block_size
    let res := writeLoop d.block_size d.blocks d.image
      (vf.blocks.drop startBlock) data blockOffset
    (true, { d with blocks := res.1, image := res.2 })

/-- The block loop of `read_data` (virtual_disk.py lines 245-260).  `size` is
the number of bytes still wanted (Python tracks `size - len(data)`). -/
def readLoop (bs : Nat) (table : List StorageBlock) (img : Nat → Nat)
    (ids : List Nat) (size : Nat) (blockOffset : Nat) : List Nat :=
  match ids with
  | [] => []
  | bid :: rest =>
    if size = 0 then []
    else
      let block := getBlock table bid
      let n := min size (bs - blockOffset)
      readRange img (block.start_offset + blockOffset) n ++
        readLoop bs table img rest (size - n) 0

/-- `VirtualDisk.read_data` (virtual_disk.py lines 233-262). -/
def VirtualDisk.read_data (d : VirtualDisk) (file_id : String)
    (size : Nat) (offset : Nat) : Option (List Nat) :=
  match dictFind? d.files file_id with
  | none => none
  | some vf =>
    let startBlock := offset / d.block_size
    let blockOffset := offset % d.block_size
    some (readLoop d.block_size d.blocks d.image
      (vf.blocks.drop startBlock) size blockOffset)

/-- The block loop of `delete_file` (virtual_disk.py lines 272-281): each owned
block becomes FREE with cleared file id and checksum, and its image bytes are
zeroed. -/
def freeLoop (table : List StorageBlock) (img : Nat → Nat) (ids : List Nat) :
    List StorageBlock × (Nat → Nat) :=
  match ids with
  | [] => (table, img)
  | bid :: rest =>
    let block := getBlock table bid
    let table' := table.set bid
      { block with status := BlockStatus.FREE, file_id := none, checksum := none }
    let img' := writeRange img block.start_offset (List.replicate block.size 0)
    freeLoop table' img' rest

/-- `VirtualDisk.delete_file` (virtual_disk.py lines 264-291).  The Python
counters are plain ints; on every reachable state the subtractions stay
nonnegative (allocated_blocks counts non-free blocks and the file's blocks are
distinct non-free blocks), so Nat subtraction is faithful there. -/
def VirtualDisk.delete_file (d : VirtualDisk) (file_id : String) :
    Bool × VirtualDisk :=
  match dictFind? d.files file_id with
  | none => (false, d)
  | some vf =>
    let res := freeLoop d.blocks d.image vf.blocks
    (true,
     { d with
        blocks := res.1
        image := res.2
        allocated_blocks := d.allocated_blocks - vf.blocks.length
        used_storage := d.used_storage - vf.size
        files := dictErase d.files file_id })

/-- The `free_blocks` field computed by `get_storage_info`
(virtual_disk.py line 300): `total_blocks - allocated_blocks`. -/
def VirtualDisk.free_blocks (d : VirtualDisk) : Nat :=
  d.total_blocks - d.allocated_blocks

/-- The number of blocks whose status is not FREE. -/
def countNonFree (d : VirtualDisk) : Nat :=
  (d.blocks.filter (fun b => ¬ (b.status = BlockStatus.FREE))).length

/-- Structural facts established by `_initialize_blocks` and never mutated
afterwards: the block table lists blocks 0..total-1 in order, block `i`
starting at byte `i * block_size` with uniform size `block_size`. -/
def BlocksCanonical (d : VirtualDisk) : Prop :=
  d.blocks.length = d.total_blocks ∧
  ∀ i : Fin d.blocks.length,
    (d.blocks.get i).block_id = i.1 ∧
    (d.blocks.get i).start_offset = i.1 * d.block_size ∧
    (d.blocks.get i).size = d.block_size

/-- Well-formedness of one file record relative to the block table: its owned
block ids are distinct, in range, and currently not FREE. -/
def FileWf (d : VirtualDisk) (vf : VirtualFile) : Prop :=
  vf.blocks.Nodup ∧
  ∀ bid ∈ vf.blocks,
    bid < d.blocks.length ∧ ¬ ((getBlock d.blocks bid).status = BlockStatus.FREE)

/-- Well-formedness of the file index: unique keys, well-formed records, and
pairwise-disjoint block ownership. -/
def FilesWf (d : VirtualDisk) : Prop :=
  (d.files.map (fun p => p.1)).Nodup ∧
  (∀ p ∈ d.files, FileWf d p.2) ∧
  List.Pairwise (fun p q => ∀ bid ∈ p.2.blocks, bid ∉ q.2.blocks) d.files

/-- The reachable-state invariant of a `VirtualDisk`: canonical block layout, a
well-formed file index, and an `allocated_blocks` counter equal to the number
of non-FREE blocks. -/
def VirtualDisk.Wf (d : VirtualDisk) : Prop :=
  BlocksCanonical d ∧ FilesWf d ∧ d.allocated_blocks = countNonFree d

/-! ## RPC layer (virtual_node.py, class RPCService) -/

/-- The `result_container` dict built in `call_remote_method`
(virtual_node.py line 66).  Method results are left abstract in the table
model (only presence/removal of entries matters to the claims about it). -/
structure ResultContainer where
  completed : Bool
  hasResult : Bool
  error : Option String
deriving DecidableEq

/-- The `pending_calls` table of an `RPCService`
(virtual_node.py line 35): call id → (result container, send timestamp). -/
structure RPCState where
  pending_calls : List (String × (ResultContainer × Nat))

/-- What the concurrent environment does to one outgoing call while the caller
polls (virtual_node.py lines 71-93): either the transport send fails, or a
response with (result?, error?) is recorded by `_handle_rpc_response` before
the timeout, or no response is recorded within the timeout. -/
inductive CallBehavior where
  | sendFailure
  | completed (hasResult : Bool) (error : Option String)
  | timeout

/-- The caller-visible outcome of `call_remote_method`: either the returned
value slot (`Except.ok`) or the raised exception message (`Except.error`). -/
def RPCOutcome := Except String Bool

/-- `RPCService.call_remote_method` (virtual_node.py lines 45-93), restricted
to its effect on the pending-call table and its caller-visible outcome.  The
entry for `call_id` is inserted before the send; on send failure or timeout the
caller deletes it and raises; when a response is recorded in time,
`_handle_rpc_response` has already deleted it (lines 164-169), and the caller
raises the remote error if one was set, else returns the result. -/
def callRemoteMethod (st : RPCState) (call_id method_name : String) (now : Nat)
    (beh : CallBehavior) : Except String Bool × RPCState :=
  let pending := dictInsert st.pending_calls call_id
    ({ completed := false, hasResult := false, error := none }, now)
  match beh with
  | CallBehavior.sendFailure =>
    (Except.error "Failed to send RPC request", { pending_calls := dictErase pending call_id })
  | CallBehavior.completed hasResult err =>
    match err with
    | some e => (Except.error e, { pending_calls := dictErase pending call_id })
    | none => (Except.ok hasResult, { pending_calls := dictErase pending call_id })
  | CallBehavior.timeout =>
    (Except.error ("RPC call to " ++ method_name ++ " timed out"),
     { pending_calls := dictErase pending call_id })

/-- `RPCService._handle_rpc_response` (virtual_node.py lines 159-169): fill and
remove the matching pending entry, or do nothing at all when the call id is
unknown (already timed out). -/
def handleRpcResponse (st : RPCState) (call_id : String) : RPCState :=
  match dictFind? st.pending_calls call_id with
  | some _ => { pending_calls := dictErase st.pending_calls call_id }
  | none => st

/-- The (result, error) pair `_handle_rpc_request` puts into the rpc-response
payload (virtual_node.py lines 103-134): for a registered method, the method's
return value with a null error (or a null result with the exception text when
the method raises); for an unregistered name, a null result and the error
string built at line 131. -/
def handleRpcRequest {α : Type} (methods : String → Option (Except String α))
    (method_name : String) : Option α × Option String :=
  match methods method_name with
  | some (Except.ok r) => (some r, none)
  | some (Except.error e) => (none, some e)
  | none => (none, some ("Method " ++ method_name ++ " not found"))

/-- One whole remote call between two running nodes, composing the callee's
`_handle_rpc_request` with the caller's response handling in
`call_remote_method` (virtual_node.py lines 80-84: raise the remote error if
set, else return the result slot). -/
def rpcCall {α : Type} (methods : String → Option (Except String α))
    (method_name : String) : Except String (Option α) :=
  let re := handleRpcRequest methods method_name
  match re.2 with
  | some e => Except.error e
  | none => Except.ok re.1

/-! ## Node-level RPC methods (virtual_node.py, VirtualNode._register_rpc_methods) -/


/-- The dict returned by the registered `ping` method (virtual_node.py lines
377-384).  `timestamp` and `uptime` are time.time() floats in Python; they are
modelled as integers, with `uptime = now - start_time` computed in ℤ so that
its sign is meaningful. -/
structure PingResult where
  success : Bool
  node_id : String
  timestamp : Int
  uptime : Int
deriving DecidableEq

/-- The registered `ping` RPC method (virtual_node.py lines 377-384). -/
def VirtualNode.ping (node_id : String) (start_time now : Int) : PingResult :=
  { success := true, node_id := node_id, timestamp := now,
    uptime := now - start_time }

/-- The slice of a node's registered-method table (virtual_node.py lines
386-391) visible at the `PingResult` type: `ping` is registered and returns the
dict of lines 377-384; any name outside the five registered ones — in
particular "frobnicate" — is absent, exactly as in the node's real table. -/
def pingOnlyMethods (node_id : String) (start_time now : Int) :
    String → Option (Except String PingResult) :=
  fun m =>
    if m = "ping" then some (Except.ok (VirtualNode.ping node_id start_time now))
    else none

/-- The dict returned by the registered `store_file_chunk` method
(virtual_node.py lines 312-342). -/
structure StoreReply where
  success : Bool
  error : Option String
  blocks : Option (List Nat)
deriving DecidableEq

/-- The registered `store_file_chunk` RPC method (virtual_node.py lines
312-342) acting on the node's disk.  `chunk_data` arrives hex-encoded over the
wire and is decoded by `bytes.fromhex`; hex transport is a bijection on byte
strings, so the model passes the bytes themselves.  The `files_uploaded` and
`bytes_transferred` metrics are not modelled (no claim mentions them). -/
def storeFileChunk (d : VirtualDisk) (file_id : String) (chunk_bytes : List Nat)
    (chunk_hash : String) (now : Nat) : StoreReply × VirtualDisk :=
  if md5hex chunk_bytes ≠ chunk_hash then
    ({ success := false, error := some "Hash mismatch", blocks := none }, d)
  else
    let alloc := d.allocate_storage (file_id ++ "_chunk") (file_id ++ "_chunk")
      chunk_bytes.length now
    match alloc with
    | (none, d1) =>
      ({ success := false, error := some "Insufficient storage", blocks := none }, d1)
    | (some bl, d1) =>
      let wr := d1.write_data (file_id ++ "_chunk") chunk_bytes 0
      if wr.1 then
        ({ success := true, error := none, blocks := some bl }, wr.2)
      else
        ({ success := false, error := some "Failed to write data", blocks := none }, wr.2)

/-! ## Decimal rendering of naturals (Python str(i) inside f-strings) -/

/-- Little-endian decimal digits of `n` (units digit first). -/
def decimalDigits (n : Nat) : List Nat :=
  if h : n < 10 then [n]
  else (n % 10) :: decimalDigits (n / 10)
  decreasing_by
    exact Nat.div_lt_self (by omega) (by omega)

/-- The character of one decimal digit. -/
def digitChar (d : Nat) : Char :=
  Char.ofNat (48 + d)

/-- Python `str(i)` for a natural number: its decimal representation. -/
def decimalRepr (n : Nat) : String :=
  String.mk ((decimalDigits n).reverse.map digitChar)

/-- The dict returned by the registered `retrieve_file_chunk` method
(virtual_node.py lines 344-367). -/
structure RetrieveReply where
  success : Bool
  error : Option String
  chunk_bytes : Option (List Nat)
  chunk_hash : Option String
  size : Option Nat
deriving DecidableEq

/-- The registered `retrieve_file_chunk` RPC method (virtual_node.py lines
344-367): read up to 1 MiB from local storage id `file_id ++ "_chunk"`. -/
def retrieveFileChunk (d : VirtualDisk) (file_id : String) : RetrieveReply :=
  match d.read_data (file_id ++ "_chunk") (1024 * 1024) 0 with
  | none =>
    { success := false, error := some "Chunk not found", chunk_bytes := none,
      chunk_hash := none, size := none }
  | some data =>
    { success := true, error := none, chunk_bytes := some data,
      chunk_hash := some (md5hex data), size := some data.length }

/-! ## Distribution algorithm (virtual_node.py, VirtualNode.distribute_file) -/

/-- One element of the `chunks` list built in `distribute_file`
(virtual_node.py lines 430-439). -/
structure FileChunk where
  chunk_id : String
  data : List Nat
  chunk_index : Nat
deriving DecidableEq

/-- The number of iterations of `range(0, N, C)`: `ceil(N / C)` (0 when N = 0). -/
def chunkCount (N C : Nat) : Nat :=
  (N + C - 1) / C

/-- The chunk list of `distribute_file` (virtual_node.py lines 428-439): the
Python loop walks byte offsets 0, C, 2C, …; chunk `j` covers bytes
`[j*C, j*C + C)` and gets id `file_id ++ "_chunk_" ++ str(j)`. -/
def fileChunks (file_id : String) (file_data : List Nat) (C : Nat) :
    List FileChunk :=
  (List.range (chunkCount file_data.length C)).map (fun j =>
    { chunk_id := file_id ++ "_chunk_" ++ decimalRepr j
      data := (file_data.drop (j * C)).take C
      chunk_index := j })

/-- The success dict returned by `distribute_file`
(virtual_node.py lines 480-489). -/
structure DistributeOk where
  file_id : String
  filename : String
  file_size : Nat
  chunk_count : Nat
  chunks_distributed : Nat
  chunk_distribution : List (String × String)
  replication_factor : Nat
deriving DecidableEq

/-- The two dict shapes `distribute_file` can return: the except-clause /
no-candidates failure dict (success=False plus an error string) or the success
dict. -/
inductive DistributeResult where
  | failure (error : String)
  | ok (r : DistributeOk)
deriving DecidableEq

/-- The per-chunk loop of `distribute_file` (virtual_node.py lines 445-465).
`callOutcome i` is the outcome of `self.call_remote_method(target, ...)` for
chunk `i`: `Except.error e` when the RPC layer raises (send failure, timeout,
remote-reported error string), `Except.ok r` when it returns the remote
method's result dict.  An exception escapes the loop into the enclosing
`except` clause; a result dict with success=False is logged and skipped. -/
def distLoop (available : List String)
    (callOutcome : Nat → Except String StoreReply) :
    List FileChunk → Nat → List (String × String) → Nat →
    Except String (List (String × String) × Nat)
  | [], _, dist, succ => Except.ok (dist, succ)
  | c :: rest, i, dist, succ =>
    let target := available.getD (i % available.length) ""
    match callOutcome i with
    | Except.error e => Except.error e
    | Except.ok r =>
      if r.success then
        distLoop available callOutcome rest (i + 1)
          (dictInsert dist c.chunk_id target) (succ + 1)
      else
        distLoop available callOutcome rest (i + 1) dist succ

/-- `VirtualNode.distribute_file` (virtual_node.py lines 407-492).  The file's
bytes are passed directly (`file_data`); `allNodes` is
`list(self.network_manager.nodes.keys())`.  The trailing
`self.virtual_disk.write_data(file_id + "_metadata", ...)` call is a no-op on
the claims considered here: its return value is discarded by the source and the
result dict is built independently of it, so the initiating node's disk is not
threaded through this model. -/
def distribute_file (self_id : String) (allNodes : List String)
    (filename : String) (file_data : List Nat) (replication_factor : Nat)
    (callOutcome : Nat → Except String StoreReply) : DistributeResult :=
  let file_id := md5hex file_data
  let file_size := file_data.length
  let available := allNodes.filter (fun n => ¬ (n = self_id))
  if available.length = 0 then
    DistributeResult.failure "No other nodes available"
  else
    let actual_replication := min replication_factor available.length
    let cs := fileChunks file_id file_data (1024 * 1024)
    match distLoop available callOutcome cs 0 [] 0 with
    | Except.error e => DistributeResult.failure e
    | Except.ok (dist, succ) =>
      DistributeResult.ok
        { file_id := file_id, filename := filename, file_size := file_size,
          chunk_count := cs.length, chunks_distributed := succ,
          chunk_distribution := dist, replication_factor := actual_replication }

/-! ## Operation sequences over one disk (for the C7 invariant) -/

/-- One mutating or reading call against a `VirtualDisk` (the public surface
used by claim C7). -/
inductive DiskOp where
  | alloc (fid name : String) (size now : Nat)
  | write (fid : String) (data : List Nat) (offset : Nat)
  | read (fid : String) (size offset : Nat)
  | delete (fid : String)

/-- State reached after one operation.  `read_data` performs no state
mutation in the source (no assignment, no metadata save), so it returns the
state unchanged. -/
def applyOp (d : VirtualDisk) : DiskOp → VirtualDisk
  | DiskOp.alloc fid name size now => (d.allocate_storage fid name size now).2
  | DiskOp.write fid data offset => (d.write_data fid data offset).2
  | DiskOp.read _ _ _ => d
  | DiskOp.delete fid => (d.delete_file fid).2

/-- Decidability of the structural invariants (used to evaluate them on
concrete disks in witnesses). -/
instance (d : VirtualDisk) : Decidable (BlocksCanonical d) := by
  unfold BlocksCanonical
  infer_instance

instance (d : VirtualDisk) (vf : VirtualFile) : Decidable (FileWf d vf) := by
  unfold FileWf
  infer_instance

instance (d : VirtualDisk) : Decidable (FilesWf d) := by
  unfold FilesWf
  infer_instance

instance (d : VirtualDisk) : Decidable d.Wf := by
  unfold VirtualDisk.Wf
  infer_instance

/-- Specification-side description of the placement map built by the
distribution loop: one entry per chunk whose per-chunk call returned a
success=True dict (`ok i`), mapping the chunk id to the round-robin node
`available[i % len(available)]`. -/
def placeListIf (available : List String) (ok : Nat → Bool) :
    List FileChunk → Nat → List (String × String)
  | [], _ => []
  | c :: rest, i0 =>
    if ok i0 then
      (c.chunk_id, available.getD (i0 % available.length) "") ::
        placeListIf available ok rest (i0 + 1)
    else
      placeListIf available ok rest (i0 + 1)

/-- The value denoted by a little-endian digit list (inverse of
`decimalDigits`, used to prove `decimalRepr` injective). -/
def natOfDigits : List Nat → Nat
  | [] => 0
  | d :: ds => d + 10 * natOfDigits ds

/-- How many of the chunk indices `i0, i0 + 1, …, i0 + n - 1` satisfy `ok`
(the number of `chunks_distributed += 1` executions of the loop). -/
def okCount (ok : Nat → Bool) : Nat → Nat → Nat
  | _, 0 => 0
  | i0, n + 1 => (if ok i0 then 1 else 0) + okCount ok (i0 + 1) n

/-! # Theorems -/

/-! ## Association-list (Python dict) lemmas -/

theorem dictFind?_erase_self {α : Type} (d : List (String × α)) (k : String) :
    dictFind? (dictErase d k) k = none := by
  induction d with
  | nil => rfl
  | cons p rest ih =>
    by_cases h : p.1 = k
    · simpa [dictErase, h] using ih
    · simpa [dictErase, h, dictFind?] using ih

theorem dictFind?_erase_ne {α : Type} (d : List (String × α)) (k k' : String)
    (h : ¬ (k' = k)) : dictFind? (dictErase d k) k' = dictFind? d k' := by
  induction d with
  | nil => rfl
  | cons p rest ih =>
    by_cases hp : p.1 = k
    · have hne : ¬ (p.1 = k') := by
        intro hc
        exact h (by rw [← hc, hp])
      rw [show dictErase (p :: rest) k = dictErase rest k by simp [dictErase, hp]]
      rw [show dictFind? (p :: rest) k' = dictFind? rest k' by simp [dictFind?, hne]]
      exact ih
    · rw [show dictErase (p :: rest) k = p :: dictErase rest k by
        simp [dictErase, hp]]
      by_cases hk : p.1 = k'
      · simp [dictFind?, hk]
      · simpa [dictFind?, hk] using ih

theorem dictFind?_insert_self {α : Type} (d : List (String × α)) (k : String)
    (v : α) : dictFind? (dictInsert d k v) k = some v := by
  induction d with
  | nil => simp [dictInsert, dictFind?]
  | cons p rest ih =>
    by_cases h : p.1 = k
    · simp [dictInsert, h, dictFind?]
    · simp [dictInsert, h, dictFind?, ih]

theorem dictFind?_insert_ne {α : Type} (d : List (String × α)) (k k' : String)
    (v : α) (h : ¬ (k' = k)) :
    dictFind? (dictInsert d k v) k' = dictFind? d k' := by
  induction d with
  | nil =>
    have hne : ¬ (k = k') := fun hc => h hc.symm
    simp [dictInsert, dictFind?, hne]
  | cons p rest ih =>
    by_cases hp : p.1 = k
    · have hne : ¬ (p.1 = k') := by
        intro hc
        exact h (by rw [← hc, hp])
      rw [show dictInsert (p :: rest) k v = (p.1, v) :: rest by
        simp [dictInsert, hp]]
      simp [dictFind?, hne]
    · rw [show dictInsert (p :: rest) k v = p :: dictInsert rest k v by
        simp [dictInsert, hp]]
      by_cases hk : p.1 = k'
      · simp [dictFind?, hk]
      · simpa [dictFind?, hk] using ih

/-! ## Claim C5: RPC timeout removes the pending call; late responses dropped -/

/-- C5: when the response to a call is not recorded within the timeout, the
call fails with a timeout error, the Pending RPC Call table no longer contains
the call id afterwards, and a response carrying that call id that arrives later
matches no pending entry and leaves the service state unchanged (dropped
silently). -/
theorem C5_timeout_removes_pending_call (st : RPCState)
    (call_id method_name : String) (now : Nat) :
    (callRemoteMethod st call_id method_name now CallBehavior.timeout).1 =
      Except.error ("RPC call to " ++ method_name ++ " timed out") ∧
    dictFind?
      ((callRemoteMethod st call_id method_name now CallBehavior.timeout).2).pending_calls
      call_id = none ∧
    handleRpcResponse
        (callRemoteMethod st call_id method_name now CallBehavior.timeout).2
        call_id =
      (callRemoteMethod st call_id method_name now CallBehavior.timeout).2 := by
  refine ⟨rfl, ?_, ?_⟩
  · exact dictFind?_erase_self _ _
  · unfold handleRpcResponse
    rw [show (callRemoteMethod st call_id method_name now CallBehavior.timeout).2 =
        { pending_calls := dictErase (dictInsert st.pending_calls call_id
            ({ completed := false, hasResult := false, error := none }, now)) call_id }
      from rfl]
    simp [dictFind?_erase_self]

/-! ## Claim C6: ping round-trip; unknown method raises at the caller -/

/-- C6 counterexample: calling an unregistered method ("frobnicate") does not
return a success=false result to the caller — `call_remote_method` raises the
remote error string as an exception, so no value at all is returned. -/
theorem C6_counterexample_unknown_method_raises :
    rpcCall (pingOnlyMethods "node_beta" 5 12) "frobnicate" =
      Except.error "Method frobnicate not found" ∧
    ∀ r : Option PingResult,
      ¬ (rpcCall (pingOnlyMethods "node_beta" 5 12) "frobnicate" = Except.ok r) := by
  refine ⟨rfl, ?_⟩
  intro r h
  simp [rpcCall, handleRpcRequest, pingOnlyMethods] at h

/-- C6 (amended): with both nodes running and a monotone clock, a remote call
of "ping" succeeds and returns the callee's node id and a non-negative uptime;
a remote call of an unregistered method makes the caller fail with a raised
exception carrying the non-null error string "Method ... not found" (the
rpc-response carries a null result and that error string) — it does not return
a success=false result dict. -/
theorem C6_ping_ok_and_unknown_method_raises
    (methods : String → Option (Except String PingResult))
    (node_id : String) (start_time now : Int) (m : String)
    (hping : methods "ping" = some (Except.ok (VirtualNode.ping node_id start_time now)))
    (hm : methods m = none) (hclock : start_time ≤ now) :
    rpcCall methods "ping" =
      Except.ok (some (VirtualNode.ping node_id start_time now)) ∧
    (VirtualNode.ping node_id start_time now).success = true ∧
    (VirtualNode.ping node_id start_time now).node_id = node_id ∧
    0 ≤ (VirtualNode.ping node_id start_time now).uptime ∧
    rpcCall methods m = Except.error ("Method " ++ m ++ " not found") := by
  refine ⟨?_, rfl, rfl, ?_, ?_⟩
  · simp [rpcCall, handleRpcRequest, hping]
  · simp only [VirtualNode.ping]
    omega
  · simp [rpcCall, handleRpcRequest, hm]

/-- Witness for C6: two concrete nodes, callee "node_beta" started at time 5,
called at time 12; unknown method name "frobnicate". -/
theorem C6_witness :
    pingOnlyMethods "node_beta" 5 12 "ping" =
      some (Except.ok (VirtualNode.ping "node_beta" 5 12)) ∧
    pingOnlyMethods "node_beta" 5 12 "frobnicate" = none ∧
    (5 : Int) ≤ 12 ∧
    rpcCall (pingOnlyMethods "node_beta" 5 12) "ping" =
      Except.ok (some (VirtualNode.ping "node_beta" 5 12)) ∧
    (VirtualNode.ping "node_beta" 5 12).success = true ∧
    (VirtualNode.ping "node_beta" 5 12).node_id = "node_beta" ∧
    0 ≤ (VirtualNode.ping "node_beta" 5 12).uptime ∧
    rpcCall (pingOnlyMethods "node_beta" 5 12) "frobnicate" =
      Except.error "Method frobnicate not found" := by
  refine ⟨rfl, rfl, by decide, ?_⟩
  have h := C6_ping_ok_and_unknown_method_raises
    (pingOnlyMethods "node_beta" 5 12) "node_beta" 5 12 "frobnicate"
    rfl rfl (by decide)
  exact ⟨h.1, h.2.1, h.2.2.1, h.2.2.2.1, h.2.2.2.2⟩

/-! ## Claim C2: insufficient storage fails without allocating anything -/

/-- C2: whenever fewer free blocks exist than ceil(size / block_size),
`allocate_storage` returns no block list and leaves the whole disk state
(blocks, file index, counters) unchanged; in particular, on a 1-block 64 KiB
disk a 64 KiB file allocates successfully leaving free_blocks = 0, and a
subsequent 1-byte allocation fails with the first file untouched. -/
theorem C2_allocate_insufficient_is_noop :
    (∀ (d : VirtualDisk) (fid name : String) (size now : Nat),
      (d.blocks.filter (fun b => b.status = BlockStatus.FREE)).length <
          (size + d.block_size - 1) / d.block_size →
      d.allocate_storage fid name size now = (none, d)) ∧
    ((VirtualDisk.init "node" 65536 65536).allocate_storage "f1" "file1" 65536 0).1 =
      some [0] ∧
    ((VirtualDisk.init "node" 65536 65536).allocate_storage "f1" "file1" 65536 0).2.free_blocks = 0 ∧
    (((VirtualDisk.init "node" 65536 65536).allocate_storage "f1" "file1" 65536 0).2.allocate_storage
        "f2" "file2" 1 1) =
      (none,
       ((VirtualDisk.init "node" 65536 65536).allocate_storage "f1" "file1" 65536 0).2) := by
  refine ⟨?_, rfl, rfl, rfl⟩
  intro d fid name size now h
  unfold VirtualDisk.allocate_storage
  simp only [h, if_pos]

/-- Witness for C2: an 8-block disk (64 bytes, block size 8) cannot hold a
200-byte file (25 blocks required), and the failing call changes nothing. -/
theorem C2_witness :
    (((VirtualDisk.init "w" 64 8).blocks.filter
        (fun b => b.status = BlockStatus.FREE)).length <
      (200 + (VirtualDisk.init "w" 64 8).block_size - 1) /
        (VirtualDisk.init "w" 64 8).block_size) ∧
    (VirtualDisk.init "w" 64 8).allocate_storage "f" "f" 200 0 =
      (none, VirtualDisk.init "w" 64 8) := by
  refine ⟨by decide, ?_⟩
  exact C2_allocate_insufficient_is_noop.1 (VirtualDisk.init "w" 64 8) "f" "f" 200 0
    (by decide)

/-! ## Image-range and block-table lemmas -/

theorem readRange_length (img : Nat → Nat) (pos len : Nat) :
    (readRange img pos len).length = len := by
  simp [readRange]

theorem readRange_congr (imgA imgB : Nat → Nat) (pos len : Nat)
    (h : ∀ i, i < len → imgA (pos + i) = imgB (pos + i)) :
    readRange imgA pos len = readRange imgB pos len := by
  unfold readRange
  apply List.map_congr_left
  intro i hi
  exact h i (List.mem_range.mp hi)

theorem writeRange_outside (img : Nat → Nat) (pos : Nat) (bytes : List Nat)
    (p : Nat) (h : ¬ (pos ≤ p ∧ p - pos < bytes.length)) :
    writeRange img pos bytes p = img p := by
  unfold writeRange
  rw [dif_neg h]

theorem writeRange_inside (img : Nat → Nat) (pos : Nat) (bytes : List Nat)
    (i : Nat) (h : i < bytes.length) :
    writeRange img pos bytes (pos + i) = bytes.get ⟨i, h⟩ := by
  unfold writeRange
  rw [dif_pos ⟨Nat.le_add_right _ _, by simpa using h⟩]
  congr 1
  simp

theorem readRange_writeRange_self (img : Nat → Nat) (pos : Nat)
    (bytes : List Nat) :
    readRange (writeRange img pos bytes) pos bytes.length = bytes := by
  apply List.ext_get
  · simp [readRange]
  · intro i h1 h2
    have hi : i < bytes.length := by simpa [readRange] using h2
    rw [show (readRange (writeRange img pos bytes) pos bytes.length).get ⟨i, h1⟩ =
        writeRange img pos bytes (pos + i) by
      simp [readRange]]
    exact writeRange_inside img pos bytes i hi

theorem getBlock_set_oob (l : List StorageBlock) (i : Nat) (a : StorageBlock)
    (h : l.length ≤ i) : l.set i a = l := by
  induction l generalizing i with
  | nil => rfl
  | cons b rest ih =>
    cases i with
    | zero => exact absurd h (by simp)
    | succ j =>
      simp only [List.set]
      rw [ih j (by simpa using h)]

theorem getBlock_set (l : List StorageBlock) (i j : Nat) (a : StorageBlock) :
    getBlock (l.set i a) j =
      if i = j ∧ j < l.length then a else getBlock l j := by
  by_cases hlen : i < l.length
  · unfold getBlock
    rw [List.get?_set_of_lt' a l hlen]
    by_cases hij : i = j
    · subst hij
      simp [hlen]
    · simp [hij]
  · rw [getBlock_set_oob l i a (Nat.le_of_not_lt hlen)]
    have : ¬ (i = j ∧ j < l.length) := by
      intro hc
      exact hlen (hc.1 ▸ hc.2)
    rw [if_neg this]

theorem getBlock_eq_get (l : List StorageBlock) (j : Nat) (h : j < l.length) :
    getBlock l j = l.get ⟨j, h⟩ := by
  unfold getBlock
  rw [List.get?_eq_get h]
  rfl

/-! ## writeLoop lemmas -/

theorem writeLoop_nil (bs : Nat) (table : List StorageBlock) (img : Nat → Nat)
    (data : List Nat) (off : Nat) :
    writeLoop bs table img [] data off = (table, img) := rfl

theorem writeLoop_cons_stop (bs : Nat) (table : List StorageBlock)
    (img : Nat → Nat) (bid : Nat) (rest : List Nat) (data : List Nat)
    (off : Nat) (h : data.length = 0) :
    writeLoop bs table img (bid :: rest) data off = (table, img) := by
  unfold writeLoop
  rw [if_pos h]

theorem writeLoop_cons_go (bs : Nat) (table : List StorageBlock)
    (img : Nat → Nat) (bid : Nat) (rest : List Nat) (data : List Nat)
    (off : Nat) (h : ¬ data.length = 0) :
    writeLoop bs table img (bid :: rest) data off =
      writeLoop bs
        (table.set bid
          { getBlock table bid with
            status := BlockStatus.OCCUPIED,
            checksum := some (md5hex (data.take (min data.length (bs - off)))) })
        (writeRange img ((getBlock table bid).start_offset + off)
          (data.take (min data.length (bs - off))))
        rest (data.drop (min data.length (bs - off))) 0 := by
  conv =>
    lhs
    unfold writeLoop
  rw [if_neg h]

theorem writeLoop_length (bs : Nat) (ids : List Nat) :
    ∀ (table : List StorageBlock) (img : Nat → Nat) (data : List Nat) (off : Nat),
    (writeLoop bs table img ids data off).1.length = table.length := by
  induction ids with
  | nil => intro table img data off; rfl
  | cons bid rest ih =>
    intro table img data off
    by_cases h : data.length = 0
    · rw [writeLoop_cons_stop bs table img bid rest data off h]
    · rw [writeLoop_cons_go bs table img bid rest data off h]
      rw [ih]
      exact List.length_set table bid _

/-- Pointwise effect of `writeLoop` on the block table: positions outside the
id list are untouched; every position keeps its identity fields (block id,
offsets, owner); statuses either stay or become OCCUPIED. -/
theorem writeLoop_getBlock (bs : Nat) (ids : List Nat) :
    ∀ (table : List StorageBlock) (img : Nat → Nat) (data : List Nat)
      (off : Nat) (j : Nat),
    (¬ j ∈ ids →
      getBlock (writeLoop bs table img ids data off).1 j = getBlock table j) ∧
    (getBlock (writeLoop bs table img ids data off).1 j).block_id =
      (getBlock table j).block_id ∧
    (getBlock (writeLoop bs table img ids data off).1 j).start_offset =
      (getBlock table j).start_offset ∧
    (getBlock (writeLoop bs table img ids data off).1 j).size =
      (getBlock table j).size ∧
    (getBlock (writeLoop bs table img ids data off).1 j).file_id =
      (getBlock table j).file_id ∧
    ((getBlock (writeLoop bs table img ids data off).1 j).status =
        (getBlock table j).status ∨
      (getBlock (writeLoop bs table img ids data off).1 j).status =
        BlockStatus.OCCUPIED) := by
  induction ids with
  | nil =>
    intro table img data off j
    exact ⟨fun _ => rfl, rfl, rfl, rfl, rfl, Or.inl rfl⟩
  | cons bid rest ih =>
    intro table img data off j
    by_cases h : data.length = 0
    · rw [writeLoop_cons_stop bs table img bid rest data off h]
      exact ⟨fun _ => rfl, rfl, rfl, rfl, rfl, Or.inl rfl⟩
    · rw [writeLoop_cons_go bs table img bid rest data off h]
      have hset := getBlock_set table bid j
        { getBlock table bid with
          status := BlockStatus.OCCUPIED,
          checksum := some (md5hex (data.take (min data.length (bs - off)))) }
      have ihj := ih (table.set bid
        { getBlock table bid with
          status := BlockStatus.OCCUPIED,
          checksum := some (md5hex (data.take (min data.length (bs - off)))) })
        (writeRange img ((getBlock table bid).start_offset + off)
          (data.take (min data.length (bs - off))))
        (data.drop (min data.length (bs - off))) 0 j
      by_cases hbj : bid = j ∧ j < table.length
      · rw [if_pos hbj] at hset
        obtain ⟨hbid, hlt⟩ := hbj
        subst hbid
        refine ⟨?_, ?_, ?_, ?_, ?_, ?_⟩
        · intro hnot
          exact absurd (List.mem_cons_self bid rest) hnot
        · rw [ihj.2.1, hset]
        · rw [ihj.2.2.1, hset]
        · rw [ihj.2.2.2.1, hset]
        · rw [ihj.2.2.2.2.1, hset]
        · refine Or.inr ?_
          rcases ihj.2.2.2.2.2 with hcase | hcase
          · rw [hcase, hset]
          · exact hcase
      · rw [if_neg hbj] at hset
        refine ⟨?_, ?_, ?_, ?_, ?_, ?_⟩
        · intro hnot
          have hrest : ¬ j ∈ rest := fun hc => hnot (List.mem_cons_of_mem _ hc)
          rw [ihj.1 hrest, hset]
        · rw [ihj.2.1, hset]
        · rw [ihj.2.2.1, hset]
        · rw [ihj.2.2.2.1, hset]
        · rw [ihj.2.2.2.2.1, hset]
        · rcases ihj.2.2.2.2.2 with hcase | hcase
          · exact Or.inl (by rw [hcase, hset])
          · exact Or.inr hcase

theorem getBlock_set_keeps_start_offset (table : List StorageBlock)
    (bid j : Nat) (upd : StorageBlock)
    (hupd : upd.start_offset = (getBlock table bid).start_offset) :
    (getBlock (table.set bid upd) j).start_offset =
      (getBlock table j).start_offset := by
  rw [getBlock_set]
  by_cases h : bid = j ∧ j < table.length
  · rw [if_pos h, hupd, h.1]
  · rw [if_neg h]

/-- Positions lying in no touched block's region are unchanged by `writeLoop`
(regions taken from the starting table; `writeLoop` never moves blocks). -/
theorem writeLoop_image_outside (bs : Nat) (ids : List Nat) :
    ∀ (table : List StorageBlock) (img : Nat → Nat) (data : List Nat)
      (off : Nat) (p : Nat),
    off ≤ bs →
    (∀ bid ∈ ids,
      ¬ ((getBlock table bid).start_offset ≤ p ∧
         p < (getBlock table bid).start_offset + bs)) →
    (writeLoop bs table img ids data off).2 p = img p := by
  induction ids with
  | nil => intro table img data off p _ _; rfl
  | cons bid rest ih =>
    intro table img data off p hoff hout
    by_cases h : data.length = 0
    · rw [writeLoop_cons_stop bs table img bid rest data off h]
    · rw [writeLoop_cons_go bs table img bid rest data off h]
      have hhead := hout bid (List.mem_cons_self bid rest)
      have hlen : (data.take (min data.length (bs - off))).length =
          min data.length (bs - off) := by
        simp [List.length_take]
      rw [ih _ _ _ _ p (Nat.zero_le bs) ?_]
      · apply writeRange_outside
        intro hc
        rw [hlen] at hc
        apply hhead
        constructor
        · omega
        · have hn : min data.length (bs - off) ≤ bs - off := Nat.min_le_right _ _
          omega
      · intro bid' hbid'
        have hp := hout bid' (List.mem_cons_of_mem bid hbid')
        rw [getBlock_set_keeps_start_offset table bid bid'
          { getBlock table bid with
            status := BlockStatus.OCCUPIED,
            checksum := some (md5hex (data.take (min data.length (bs - off)))) }
          rfl]
        exact hp

theorem readLoop_nil (bs : Nat) (table : List StorageBlock) (img : Nat → Nat)
    (size off : Nat) : readLoop bs table img [] size off = [] := rfl

theorem readLoop_cons_stop (bs : Nat) (table : List StorageBlock)
    (img : Nat → Nat) (bid : Nat) (rest : List Nat) (off : Nat) :
    readLoop bs table img (bid :: rest) 0 off = [] := by
  unfold readLoop
  rw [if_pos rfl]

theorem readLoop_cons_go (bs : Nat) (table : List StorageBlock)
    (img : Nat → Nat) (bid : Nat) (rest : List Nat) (size off : Nat)
    (h : ¬ size = 0) :
    readLoop bs table img (bid :: rest) size off =
      readRange img ((getBlock table bid).start_offset + off)
        (min size (bs - off)) ++
      readLoop bs table img rest (size - min size (bs - off)) 0 := by
  conv =>
    lhs
    unfold readLoop
  rw [if_neg h]

/-- Core round-trip: writing `data` across a distinct, canonically laid out
run of blocks and reading the same number of bytes back from the same start
returns exactly `data`. -/
theorem writeLoop_readLoop_roundtrip (bs : Nat) (hbs : 0 < bs)
    (ids : List Nat) :
    ∀ (table : List StorageBlock) (img : Nat → Nat) (data : List Nat)
      (off : Nat),
    ids.Nodup →
    (∀ bid ∈ ids, bid < table.length ∧
      (getBlock table bid).start_offset = bid * bs) →
    off < bs →
    off + data.length ≤ ids.length * bs →
    readLoop bs (writeLoop bs table img ids data off).1
      (writeLoop bs table img ids data off).2 ids data.length off = data := by
  induction ids with
  | nil =>
    intro table img data off _ _ _ hfit
    have h0 : ([] : List Nat).length * bs = 0 := by simp
    rw [h0] at hfit
    have hd : data = [] := List.length_eq_zero.mp (by omega)
    subst hd
    rfl
  | cons bid rest ih =>
    intro table img data off hnodup hcanon hoff hfit
    by_cases h : data.length = 0
    · rw [writeLoop_cons_stop bs table img bid rest data off h]
      rw [h, readLoop_cons_stop]
      exact (List.length_eq_zero.mp h).symm
    · have hbid := hcanon bid (List.mem_cons_self bid rest)
      have hnle : min data.length (bs - off) ≤ data.length := Nat.min_le_left _ _
      have hnbs : min data.length (bs - off) ≤ bs - off := Nat.min_le_right _ _
      have hnpos : ¬ min data.length (bs - off) = 0 := by
        have h1 : 0 < data.length := Nat.pos_of_ne_zero h
        have h2 : 0 < bs - off := by omega
        omega
      rw [writeLoop_cons_go bs table img bid rest data off h]
      set upd : StorageBlock :=
        { getBlock table bid with
          status := BlockStatus.OCCUPIED,
          checksum := some (md5hex (data.take (min data.length (bs - off)))) }
        with hupd
      set table' := table.set bid upd with htable'
      set img' := writeRange img ((getBlock table bid).start_offset + off)
        (data.take (min data.length (bs - off))) with himg'
      set data' := data.drop (min data.length (bs - off)) with hdata'
      have hskel := writeLoop_getBlock bs rest table' img' data' 0 bid
      have hstart : (getBlock (writeLoop bs table' img' rest data' 0).1 bid).start_offset =
          bid * bs := by
        rw [hskel.2.2.1]
        rw [getBlock_set_keeps_start_offset table bid bid upd rfl]
        exact hbid.2
      rw [readLoop_cons_go bs _ _ bid rest data.length off h, hstart]
      have hfirst :
          readRange (writeLoop bs table' img' rest data' 0).2
            (bid * bs + off) (min data.length (bs - off)) =
          data.take (min data.length (bs - off)) := by
        have huntouched :
            ∀ i, i < min data.length (bs - off) →
              (writeLoop bs table' img' rest data' 0).2 (bid * bs + off + i) =
                img' (bid * bs + off + i) := by
          intro i hi
          apply writeLoop_image_outside bs rest table' img' data' 0 _
            (Nat.zero_le bs)
          intro bid' hbid'
          have hb' := hcanon bid' (List.mem_cons_of_mem bid hbid')
          rw [getBlock_set_keeps_start_offset table bid bid' upd rfl, hb'.2]
          have hne : ¬ bid' = bid := by
            intro hc
            exact (List.nodup_cons.mp hnodup).1 (hc ▸ hbid')
          intro hc
          rcases Nat.lt_or_ge bid' bid with hlt | hge
          · have : bid' * bs + bs ≤ bid * bs := by
              have : bid' + 1 ≤ bid := hlt
              calc bid' * bs + bs = (bid' + 1) * bs := by ring
                _ ≤ bid * bs := Nat.mul_le_mul_right bs this
            omega
          · have hgt : bid < bid' := Nat.lt_of_le_of_ne hge (fun hc2 => hne hc2.symm)
            have : bid * bs + bs ≤ bid' * bs := by
              have : bid + 1 ≤ bid' := hgt
              calc bid * bs + bs = (bid + 1) * bs := by ring
                _ ≤ bid' * bs := Nat.mul_le_mul_right bs this
            omega
        rw [readRange_congr _ img' _ _ huntouched]
        have hlen : (data.take (min data.length (bs - off))).length =
            min data.length (bs - off) := by
          simp [List.length_take]
        rw [himg', hbid.2]
        have hr := readRange_writeRange_self img (bid * bs + off)
          (data.take (min data.length (bs - off)))
        rw [hlen] at hr
        exact hr
      rw [hfirst]
      have hrest :
          readLoop bs (writeLoop bs table' img' rest data' 0).1
            (writeLoop bs table' img' rest data' 0).2 rest
            (data.length - min data.length (bs - off)) 0 = data' := by
        have hdlen : data'.length = data.length - min data.length (bs - off) := by
          rw [hdata']
          simp [List.length_drop]
        rw [show data.length - min data.length (bs - off) = data'.length from hdlen.symm]
        apply ih table' img' data' 0 (List.nodup_cons.mp hnodup).2
        · intro bid' hbid'
          have hb' := hcanon bid' (List.mem_cons_of_mem bid hbid')
          constructor
          · rw [htable', List.length_set]
            exact hb'.1
          · rw [getBlock_set_keeps_start_offset table bid bid' upd rfl]
            exact hb'.2
        · exact hbs
        · have hlen1 : (bid :: rest).length = rest.length + 1 := rfl
          have hmul : (rest.length + 1) * bs = rest.length * bs + bs := by ring
          rw [hlen1, hmul] at hfit
          rw [hdlen]
          omega
      rw [hrest, hdata']
      exact List.take_append_drop _ data

theorem dictFind?_mem {α : Type} (d : List (String × α)) (k : String) (v : α)
    (h : dictFind? d k = some v) : (k, v) ∈ d := by
  induction d with
  | nil => cases h
  | cons p rest ih =>
    unfold dictFind? at h
    by_cases hp : p.1 = k
    · rw [if_pos hp] at h
      have hv : p.2 = v := Option.some.inj h
      have hpair : p = (k, v) := by
        obtain ⟨a, b⟩ := p
        simp only [Prod.mk.injEq]
        exact ⟨hp, hv⟩
      rw [← hpair]
      exact List.mem_cons_self p rest
    · rw [if_neg hp] at h
      exact List.mem_cons_of_mem _ (ih h)

/-- The `write_data` success branch, spelled out. -/
theorem write_data_found (d : VirtualDisk) (fid : String) (data : List Nat)
    (offset : Nat) (vf : VirtualFile)
    (hvf : dictFind? d.files fid = some vf) :
    d.write_data fid data offset =
      (true,
       { d with
          blocks := (writeLoop d.block_size d.blocks d.image
            (vf.blocks.drop (offset / d.block_size)) data
            (offset % d.block_size)).1
          image := (writeLoop d.block_size d.blocks d.image
            (vf.blocks.drop (offset / d.block_size)) data
            (offset % d.block_size)).2 }) := by
  unfold VirtualDisk.write_data
  rw [hvf]

/-- Read-after-write on the same file id, reduced to the two loops. -/
theorem read_data_after_write (d : VirtualDisk) (fid : String)
    (data : List Nat) (offset size : Nat) (vf : VirtualFile)
    (hvf : dictFind? d.files fid = some vf) :
    ((d.write_data fid data offset).2).read_data fid size offset =
      some (readLoop d.block_size
        (writeLoop d.block_size d.blocks d.image
          (vf.blocks.drop (offset / d.block_size)) data
          (offset % d.block_size)).1
        (writeLoop d.block_size d.blocks d.image
          (vf.blocks.drop (offset / d.block_size)) data
          (offset % d.block_size)).2
        (vf.blocks.drop (offset / d.block_size)) size
        (offset % d.block_size)) := by
  rw [write_data_found d fid data offset vf hvf]
  simp only [VirtualDisk.read_data, hvf]

/-- The `read_data` success branch, spelled out. -/
theorem read_data_found (d : VirtualDisk) (fid : String) (size offset : Nat)
    (vf : VirtualFile) (hvf : dictFind? d.files fid = some vf) :
    d.read_data fid size offset =
      some (readLoop d.block_size d.blocks d.image
        (vf.blocks.drop (offset / d.block_size)) size
        (offset % d.block_size)) := by
  unfold VirtualDisk.read_data
  rw [hvf]

/-! ## Claim C3: write/read round trip -/

/-- C3: for a well-formed disk, a file allocated with b blocks, and data that
fits inside the file's allocation (offset + len(data) ≤ b·block_size),
`write_data` succeeds and an immediately following `read_data` of the same
length at the same offset returns exactly the written bytes. -/
theorem C3_write_read_roundtrip (d : VirtualDisk) (fid : String)
    (data : List Nat) (offset : Nat) (vf : VirtualFile)
    (hwf : d.Wf) (hvf : dictFind? d.files fid = some vf)
    (hbs : 0 < d.block_size)
    (hfit : offset + data.length ≤ vf.blocks.length * d.block_size) :
    (d.write_data fid data offset).1 = true ∧
    ((d.write_data fid data offset).2).read_data fid data.length offset =
      some data := by
  obtain ⟨hcanon, hfiles, _⟩ := hwf
  have hmem : (fid, vf) ∈ d.files := dictFind?_mem d.files fid vf hvf
  have hfwf : FileWf d vf := hfiles.2.1 (fid, vf) hmem
  constructor
  · rw [write_data_found d fid data offset vf hvf]
  rw [read_data_after_write d fid data offset data.length vf hvf]
  have hids_nodup : (vf.blocks.drop (offset / d.block_size)).Nodup :=
    hfwf.1.sublist (List.drop_sublist _ _)
  have hids_canon : ∀ bid ∈ vf.blocks.drop (offset / d.block_size),
      bid < d.blocks.length ∧
      (getBlock d.blocks bid).start_offset = bid * d.block_size := by
    intro bid hbid
    have hbid' : bid ∈ vf.blocks := (List.drop_sublist _ _).subset hbid
    have hlt : bid < d.blocks.length := (hfwf.2 bid hbid').1
    refine ⟨hlt, ?_⟩
    rw [getBlock_eq_get d.blocks bid hlt]
    exact (hcanon.2 ⟨bid, hlt⟩).2.1
  have hoff : offset % d.block_size < d.block_size := Nat.mod_lt _ hbs
  have hfit' : offset % d.block_size + data.length ≤
      (vf.blocks.drop (offset / d.block_size)).length * d.block_size := by
    have hdm : offset / d.block_size * d.block_size + offset % d.block_size =
        offset := by
      rw [Nat.mul_comm]
      exact Nat.div_add_mod offset d.block_size
    have hmle : offset / d.block_size * d.block_size ≤
        vf.blocks.length * d.block_size := by omega
    have hsble : offset / d.block_size ≤ vf.blocks.length :=
      Nat.le_of_mul_le_mul_right hmle hbs
    have hsub : (vf.blocks.length - offset / d.block_size) * d.block_size =
        vf.blocks.length * d.block_size -
          offset / d.block_size * d.block_size :=
      Nat.sub_mul _ _ _
    rw [List.length_drop, hsub]
    omega
  have hrt := writeLoop_readLoop_roundtrip d.block_size hbs
    (vf.blocks.drop (offset / d.block_size)) d.blocks d.image data
    (offset % d.block_size) hids_nodup hids_canon hoff hfit'
  rw [hrt]

/-- Witness for C3: a 3-block file on an 8-byte-block disk, 5 bytes written at
offset 6 (straddling a block boundary) and read back. -/
theorem C3_witness :
    (((VirtualDisk.init "w" 64 8).allocate_storage "f" "f" 20 0).2).Wf ∧
    dictFind? (((VirtualDisk.init "w" 64 8).allocate_storage "f" "f" 20 0).2).files "f" =
      some { file_id := "f", filename := "f", size := 20, blocks := [0, 1, 2],
             created_at := 0, checksum := md5hexOfString "f-f-20" } ∧
    0 < (((VirtualDisk.init "w" 64 8).allocate_storage "f" "f" 20 0).2).block_size ∧
    ((((VirtualDisk.init "w" 64 8).allocate_storage "f" "f" 20 0).2).write_data
        "f" [9, 8, 7, 6, 5] 6).1 = true ∧
    (((((VirtualDisk.init "w" 64 8).allocate_storage "f" "f" 20 0).2).write_data
        "f" [9, 8, 7, 6, 5] 6).2).read_data "f" 5 6 = some [9, 8, 7, 6, 5] := by
  refine ⟨by decide, by decide, by decide, ?_⟩
  exact C3_write_read_roundtrip
    (((VirtualDisk.init "w" 64 8).allocate_storage "f" "f" 20 0).2) "f"
    [9, 8, 7, 6, 5] 6
    { file_id := "f", filename := "f", size := 20, blocks := [0, 1, 2],
      created_at := 0, checksum := md5hexOfString "f-f-20" }
    (by decide) (by decide) (by decide) (by decide)

/-! ## Claim C10: write_data succeeds for every known file id, truncating -/

/-- C10: for a known fileId, `write_data` returns True regardless of how long
`data` is relative to the allocation — bytes past the file's owned blocks are
silently not written (every image position outside the owned blocks' regions is
unchanged) and no error is reported; `write_data` returns False (and changes
nothing) exactly when the fileId is unknown. -/
theorem C10_write_overflow_silent (d : VirtualDisk) (fid : String)
    (data : List Nat) (offset : Nat) (hwf : d.Wf) (hbs : 0 < d.block_size) :
    (∀ vf, dictFind? d.files fid = some vf →
      (d.write_data fid data offset).1 = true ∧
      ∀ p : Nat,
        (∀ bid ∈ vf.blocks,
          ¬ (bid * d.block_size ≤ p ∧
             p < bid * d.block_size + d.block_size)) →
        (d.write_data fid data offset).2.image p = d.image p) ∧
    (dictFind? d.files fid = none → d.write_data fid data offset = (false, d)) := by
  constructor
  · intro vf hvf
    obtain ⟨hcanon, hfiles, _⟩ := hwf
    have hmem : (fid, vf) ∈ d.files := dictFind?_mem d.files fid vf hvf
    have hfwf : FileWf d vf := hfiles.2.1 (fid, vf) hmem
    rw [write_data_found d fid data offset vf hvf]
    refine ⟨rfl, ?_⟩
    intro p hout
    apply writeLoop_image_outside d.block_size
      (vf.blocks.drop (offset / d.block_size)) d.blocks d.image data
      (offset % d.block_size) p (Nat.le_of_lt (Nat.mod_lt _ hbs))
    intro bid hbid
    have hbid' : bid ∈ vf.blocks := (List.drop_sublist _ _).subset hbid
    have hlt : bid < d.blocks.length := (hfwf.2 bid hbid').1
    rw [getBlock_eq_get d.blocks bid hlt, (hcanon.2 ⟨bid, hlt⟩).2.1]
    exact hout bid hbid'
  · intro hnone
    unfold VirtualDisk.write_data
    rw [hnone]

/-- Witness for C10: writing 30 bytes into a 20-byte (3-block) file returns
True, and the byte just past the file's last block is untouched. -/
theorem C10_witness :
    (((VirtualDisk.init "w" 64 8).allocate_storage "f" "f" 20 0).2).Wf ∧
    0 < (((VirtualDisk.init "w" 64 8).allocate_storage "f" "f" 20 0).2).block_size ∧
    ((∀ vf, dictFind?
        (((VirtualDisk.init "w" 64 8).allocate_storage "f" "f" 20 0).2).files "f" =
          some vf →
      ((((VirtualDisk.init "w" 64 8).allocate_storage "f" "f" 20 0).2).write_data
          "f" (List.range 30) 0).1 = true ∧
      ∀ p : Nat,
        (∀ bid ∈ vf.blocks,
          ¬ (bid * (((VirtualDisk.init "w" 64 8).allocate_storage "f" "f" 20 0).2).block_size ≤ p ∧
             p < bid * (((VirtualDisk.init "w" 64 8).allocate_storage "f" "f" 20 0).2).block_size +
               (((VirtualDisk.init "w" 64 8).allocate_storage "f" "f" 20 0).2).block_size)) →
        ((((VirtualDisk.init "w" 64 8).allocate_storage "f" "f" 20 0).2).write_data
            "f" (List.range 30) 0).2.image p =
          (((VirtualDisk.init "w" 64 8).allocate_storage "f" "f" 20 0).2).image p) ∧
    (dictFind?
        (((VirtualDisk.init "w" 64 8).allocate_storage "f" "f" 20 0).2).files "f" =
          none →
      (((VirtualDisk.init "w" 64 8).allocate_storage "f" "f" 20 0).2).write_data
          "f" (List.range 30) 0 =
        (false, ((VirtualDisk.init "w" 64 8).allocate_storage "f" "f" 20 0).2))) := by
  refine ⟨by decide, by decide, ?_⟩
  exact C10_write_overflow_silent
    (((VirtualDisk.init "w" 64 8).allocate_storage "f" "f" 20 0).2) "f"
    (List.range 30) 0 (by decide) (by decide)

/-! ## markAllocate lemmas -/

theorem markAllocate_zero (blocks : List StorageBlock) (fid : String) :
    markAllocate blocks 0 fid = (blocks, []) := by
  cases blocks <;> rfl

theorem markAllocate_nil (n : Nat) (fid : String) :
    markAllocate [] n fid = ([], []) := by
  cases n <;> rfl

theorem markAllocate_cons_free (b : StorageBlock) (bs : List StorageBlock)
    (m : Nat) (fid : String) (h : b.status = BlockStatus.FREE) :
    markAllocate (b :: bs) (m + 1) fid =
      ({ b with status := BlockStatus.ALLOCATED, file_id := some fid } ::
        (markAllocate bs m fid).1,
       b.block_id :: (markAllocate bs m fid).2) := by
  conv =>
    lhs
    unfold markAllocate
  rw [if_pos h]

theorem markAllocate_cons_nonfree (b : StorageBlock) (bs : List StorageBlock)
    (m : Nat) (fid : String) (h : ¬ b.status = BlockStatus.FREE) :
    markAllocate (b :: bs) (m + 1) fid =
      (b :: (markAllocate bs (m + 1) fid).1, (markAllocate bs (m + 1) fid).2) := by
  conv =>
    lhs
    unfold markAllocate
  rw [if_neg h]

theorem markAllocate_length (fid : String) :
    ∀ (blocks : List StorageBlock) (n : Nat),
    (markAllocate blocks n fid).1.length = blocks.length := by
  intro blocks
  induction blocks with
  | nil =>
    intro n
    rw [markAllocate_nil]
  | cons b bs ih =>
    intro n
    cases n with
    | zero => rw [markAllocate_zero]
    | succ m =>
      by_cases h : b.status = BlockStatus.FREE
      · rw [markAllocate_cons_free b bs m fid h]
        simpa using ih m
      · rw [markAllocate_cons_nonfree b bs m fid h]
        simpa using ih (m + 1)

theorem markAllocate_ids (fid : String) :
    ∀ (blocks : List StorageBlock) (n : Nat),
    (markAllocate blocks n fid).2 =
      ((blocks.filter (fun b => b.status = BlockStatus.FREE)).take n).map
        (fun b => b.block_id) := by
  intro blocks
  induction blocks with
  | nil =>
    intro n
    rw [markAllocate_nil]
    simp
  | cons b bs ih =>
    intro n
    cases n with
    | zero =>
      rw [markAllocate_zero]
      simp
    | succ m =>
      by_cases h : b.status = BlockStatus.FREE
      · rw [markAllocate_cons_free b bs m fid h]
        dsimp only
        rw [ih m]
        simp [List.filter_cons, h]
      · rw [markAllocate_cons_nonfree b bs m fid h]
        dsimp only
        rw [ih (m + 1)]
        simp [List.filter_cons, h]

theorem markAllocate_ids_sublist (fid : String) (blocks : List StorageBlock)
    (n : Nat) :
    List.Sublist (markAllocate blocks n fid).2
      (blocks.map (fun b => b.block_id)) := by
  rw [markAllocate_ids]
  exact List.Sublist.map _ ((List.take_sublist _ _).trans (List.filter_sublist _))

theorem markAllocate_ids_length (fid : String) (blocks : List StorageBlock)
    (n : Nat)
    (h : n ≤ (blocks.filter (fun b => b.status = BlockStatus.FREE)).length) :
    (markAllocate blocks n fid).2.length = n := by
  rw [markAllocate_ids]
  rw [List.length_map, List.length_take]
  omega

theorem markAllocate_countNonFree (fid : String) :
    ∀ (blocks : List StorageBlock) (n : Nat),
    n ≤ (blocks.filter (fun b => b.status = BlockStatus.FREE)).length →
    ((markAllocate blocks n fid).1.filter
        (fun b => ¬ (b.status = BlockStatus.FREE))).length =
      (blocks.filter (fun b => ¬ (b.status = BlockStatus.FREE))).length + n := by
  intro blocks
  induction blocks with
  | nil =>
    intro n hn
    rw [markAllocate_nil]
    dsimp only
    simp at hn
    simp [hn]
  | cons b bs ih =>
    intro n hn
    cases n with
    | zero =>
      rw [markAllocate_zero]
      dsimp only
      simp
    | succ m =>
      by_cases h : b.status = BlockStatus.FREE
      · rw [markAllocate_cons_free b bs m fid h]
        dsimp only
        have hm : m ≤ (bs.filter (fun x => x.status = BlockStatus.FREE)).length := by
          simp [List.filter_cons, h] at hn
          omega
        have hih := ih m hm
        simp [List.filter_cons, h] at hih ⊢
        omega
      · rw [markAllocate_cons_nonfree b bs m fid h]
        dsimp only
        have hm : m + 1 ≤ (bs.filter (fun x => x.status = BlockStatus.FREE)).length := by
          simp [List.filter_cons, h] at hn
          omega
        have hih := ih (m + 1) hm
        simp [List.filter_cons, h] at hih ⊢
        omega

theorem markAllocate_blocks_map (fid : String) :
    ∀ (blocks : List StorageBlock) (n : Nat),
    (blocks.map (fun b => b.block_id)).Nodup →
    (markAllocate blocks n fid).1 =
      blocks.map (fun b =>
        if b.block_id ∈ (markAllocate blocks n fid).2 then
          { b with status := BlockStatus.ALLOCATED, file_id := some fid }
        else b) := by
  intro blocks
  induction blocks with
  | nil =>
    intro n _
    rw [markAllocate_nil]
    rfl
  | cons b bs ih =>
    intro n hnodup
    rw [List.map_cons] at hnodup
    have hhead : ¬ b.block_id ∈ bs.map (fun x => x.block_id) :=
      (List.nodup_cons.mp hnodup).1
    have htail : (bs.map (fun x => x.block_id)).Nodup :=
      (List.nodup_cons.mp hnodup).2
    cases n with
    | zero =>
      rw [markAllocate_zero]
      dsimp only
      simp
    | succ m =>
      by_cases h : b.status = BlockStatus.FREE
      · rw [markAllocate_cons_free b bs m fid h]
        dsimp only
        rw [List.map_cons]
        congr 1
        · rw [if_pos (List.mem_cons_self _ _)]
        · rw [ih m htail]
          apply List.map_congr_left
          intro x hx
          by_cases hxm : x.block_id ∈ (markAllocate bs m fid).2
          · rw [if_pos hxm, if_pos (List.mem_cons_of_mem _ hxm)]
          · have hnc : ¬ x.block_id ∈ b.block_id :: (markAllocate bs m fid).2 := by
              intro hc
              rcases List.mem_cons.mp hc with hc1 | hc2
              · exact hhead (hc1 ▸ List.mem_map_of_mem (fun x => x.block_id) hx)
              · exact hxm hc2
            rw [if_neg hxm, if_neg hnc]
      · rw [markAllocate_cons_nonfree b bs m fid h]
        dsimp only
        rw [List.map_cons]
        congr 1
        · have hnc : ¬ b.block_id ∈ (markAllocate bs (m + 1) fid).2 := by
            intro hc
            exact hhead ((markAllocate_ids_sublist fid bs (m + 1)).subset hc)
          rw [if_neg hnc]
        · exact ih (m + 1) htail

/-- Membership in the id list returned by `markAllocate` implies the block at
that position was FREE (canonical tables). -/
theorem markAllocate_ids_mem_free (fid : String) (blocks : List StorageBlock)
    (n : Nat) (bid : Nat) (hmem : bid ∈ (markAllocate blocks n fid).2) :
    ∃ b, b ∈ blocks ∧ b.block_id = bid ∧ b.status = BlockStatus.FREE := by
  rw [markAllocate_ids] at hmem
  obtain ⟨b, hb, hid⟩ := List.mem_map.mp hmem
  have hb' : b ∈ blocks.filter (fun x => x.status = BlockStatus.FREE) :=
    (List.take_sublist _ _).subset hb
  have hmem2 := List.mem_filter.mp hb'
  exact ⟨b, hmem2.1, hid, by simpa using hmem2.2⟩

/-! ## Counting helpers -/

theorem filter_length_congr {α : Type} (f : α → Bool) :
    ∀ (l₁ l₂ : List α), l₁.length = l₂.length →
    (∀ i (h₁ : i < l₁.length) (h₂ : i < l₂.length),
      f (l₁.get ⟨i, h₁⟩) = f (l₂.get ⟨i, h₂⟩)) →
    (l₁.filter f).length = (l₂.filter f).length := by
  intro l₁
  induction l₁ with
  | nil =>
    intro l₂ hlen _
    cases l₂ with
    | nil => rfl
    | cons b t => simp at hlen
  | cons a l ih =>
    intro l₂ hlen hpt
    cases l₂ with
    | nil => simp at hlen
    | cons b t =>
      have h0 : f a = f b := hpt 0 (by simp) (by simp)
      have htail := ih t (by simpa using hlen)
        (fun i h₁ h₂ => hpt (i + 1) (by simpa using Nat.succ_lt_succ h₁)
          (by simpa using Nat.succ_lt_succ h₂))
      rw [List.filter_cons, List.filter_cons, h0]
      by_cases hb : f b = true
      · rw [if_pos hb, if_pos hb]
        simp [htail]
      · rw [if_neg hb, if_neg hb]
        exact htail

theorem filterLength_set {α : Type} (f : α → Bool) :
    ∀ (l : List α) (i : Nat) (h : i < l.length) (a : α),
    ((l.set i a).filter f).length + (if f (l.get ⟨i, h⟩) then 1 else 0) =
      (l.filter f).length + (if f a then 1 else 0) := by
  intro l
  induction l with
  | nil =>
    intro i h
    simp at h
  | cons b t ih =>
    intro i h a
    cases i with
    | zero =>
      simp only [List.set, List.filter_cons, List.get]
      by_cases hfa : f a = true
      · by_cases hfb : f b = true
        · simp [hfa, hfb]
        · simp [hfa, hfb]
      · by_cases hfb : f b = true
        · simp [hfa, hfb]
        · simp [hfa, hfb]
    | succ j =>
      have hj : j < t.length := by simpa using h
      have hih := ih j hj a
      simp only [List.set, List.filter_cons, List.get_cons_succ]
      cases hfb : f b
      · simp
        simp only [List.get_eq_getElem] at hih
        omega
      · simp
        simp only [List.get_eq_getElem] at hih
        omega

/-! ## freeLoop lemmas -/

theorem getBlock_set_keeps_size (table : List StorageBlock) (bid j : Nat)
    (upd : StorageBlock) (hupd : upd.size = (getBlock table bid).size) :
    (getBlock (table.set bid upd) j).size = (getBlock table j).size := by
  rw [getBlock_set]
  by_cases h : bid = j ∧ j < table.length
  · rw [if_pos h, hupd, h.1]
  · rw [if_neg h]

theorem freeLoop_nil (table : List StorageBlock) (img : Nat → Nat) :
    freeLoop table img [] = (table, img) := rfl

theorem freeLoop_cons (table : List StorageBlock) (img : Nat → Nat)
    (bid : Nat) (rest : List Nat) :
    freeLoop table img (bid :: rest) =
      freeLoop
        (table.set bid
          { getBlock table bid with
            status := BlockStatus.FREE, file_id := none, checksum := none })
        (writeRange img (getBlock table bid).start_offset
          (List.replicate (getBlock table bid).size 0))
        rest := rfl

theorem freeLoop_length (ids : List Nat) :
    ∀ (table : List StorageBlock) (img : Nat → Nat),
    (freeLoop table img ids).1.length = table.length := by
  induction ids with
  | nil => intro table img; rfl
  | cons bid rest ih =>
    intro table img
    rw [freeLoop_cons]
    rw [ih]
    exact List.length_set table bid _

/-- Pointwise effect of `freeLoop` on the block table. -/
theorem freeLoop_getBlock (ids : List Nat) :
    ∀ (table : List StorageBlock) (img : Nat → Nat) (j : Nat),
    (¬ j ∈ ids → getBlock (freeLoop table img ids).1 j = getBlock table j) ∧
    (ids.Nodup → j ∈ ids → j < table.length →
      getBlock (freeLoop table img ids).1 j =
        { getBlock table j with
          status := BlockStatus.FREE, file_id := none, checksum := none }) := by
  induction ids with
  | nil =>
    intro table img j
    exact ⟨fun _ => rfl, fun _ hj => absurd hj (List.not_mem_nil j)⟩
  | cons bid rest ih =>
    intro table img j
    rw [freeLoop_cons]
    have hset := getBlock_set table bid j
      { getBlock table bid with
        status := BlockStatus.FREE, file_id := none, checksum := none }
    constructor
    · intro hnot
      have hne : ¬ bid = j := fun hc => hnot (hc ▸ List.mem_cons_self bid rest)
      have hnrest : ¬ j ∈ rest := fun hc => hnot (List.mem_cons_of_mem _ hc)
      rw [(ih _ _ j).1 hnrest, hset, if_neg (fun hc => hne hc.1)]
    · intro hnodup hj hlt
      rcases List.mem_cons.mp hj with hjb | hjr
      · have hnrest : ¬ j ∈ rest := by
          rw [hjb]
          exact (List.nodup_cons.mp hnodup).1
        rw [(ih _ _ j).1 hnrest, hset, if_pos ⟨hjb.symm, hlt⟩, hjb]
      · have hne : ¬ bid = j := by
          intro hc
          exact (List.nodup_cons.mp hnodup).1 (hc ▸ hjr)
        have hres := (ih
          (table.set bid
            { getBlock table bid with
              status := BlockStatus.FREE, file_id := none, checksum := none })
          (writeRange img (getBlock table bid).start_offset
            (List.replicate (getBlock table bid).size 0))
          j).2 (List.nodup_cons.mp hnodup).2 hjr
          (by rw [List.length_set]; exact hlt)
        rw [hres, hset, if_neg (fun hc => hne hc.1)]

/-- Positions in no freed block's region are unchanged by `freeLoop`. -/
theorem freeLoop_image_outside (ids : List Nat) :
    ∀ (table : List StorageBlock) (img : Nat → Nat) (p : Nat),
    (∀ bid ∈ ids,
      ¬ ((getBlock table bid).start_offset ≤ p ∧
         p < (getBlock table bid).start_offset + (getBlock table bid).size)) →
    (freeLoop table img ids).2 p = img p := by
  induction ids with
  | nil => intro table img p _; rfl
  | cons bid rest ih =>
    intro table img p hout
    rw [freeLoop_cons]
    have hhead := hout bid (List.mem_cons_self bid rest)
    rw [ih _ _ p ?_]
    · apply writeRange_outside
      intro hc
      apply hhead
      rw [List.length_replicate] at hc
      exact ⟨hc.1, by omega⟩
    · intro bid' hbid'
      have hp := hout bid' (List.mem_cons_of_mem bid hbid')
      rw [getBlock_set_keeps_start_offset table bid bid'
        { getBlock table bid with
          status := BlockStatus.FREE, file_id := none, checksum := none } rfl]
      rw [getBlock_set_keeps_size table bid bid'
        { getBlock table bid with
          status := BlockStatus.FREE, file_id := none, checksum := none } rfl]
      exact hp

/-- Every byte of every freed block's region is zero after `freeLoop`
(canonical layout). -/
theorem freeLoop_image_zero (bsz : Nat) (ids : List Nat) :
    ∀ (table : List StorageBlock) (img : Nat → Nat) (bid i : Nat),
    ids.Nodup →
    (∀ b ∈ ids, b < table.length ∧
      (getBlock table b).start_offset = b * bsz ∧
      (getBlock table b).size = bsz) →
    bid ∈ ids → i < bsz →
    (freeLoop table img ids).2 (bid * bsz + i) = 0 := by
  induction ids with
  | nil =>
    intro table img bid i _ _ hmem
    exact absurd hmem (List.not_mem_nil bid)
  | cons b rest ih =>
    intro table img bid i hnodup hcanon hmem hi
    rw [freeLoop_cons]
    rcases List.mem_cons.mp hmem with hb | hr
    · subst hb
      have hc := hcanon bid (List.mem_cons_self bid rest)
      rw [freeLoop_image_outside rest _ _ _ ?_]
      · rw [hc.2.1, hc.2.2]
        have := writeRange_inside img (bid * bsz) (List.replicate bsz 0) i
          (by simpa using hi)
        rw [this]
        simp
      · intro bid' hbid'
        have hc' := hcanon bid' (List.mem_cons_of_mem bid hbid')
        rw [getBlock_set_keeps_start_offset table bid bid'
          { getBlock table bid with
            status := BlockStatus.FREE, file_id := none, checksum := none } rfl]
        rw [getBlock_set_keeps_size table bid bid'
          { getBlock table bid with
            status := BlockStatus.FREE, file_id := none, checksum := none } rfl]
        rw [hc'.2.1, hc'.2.2]
        have hne : ¬ bid' = bid := by
          intro hc2
          exact (List.nodup_cons.mp hnodup).1 (hc2 ▸ hbid')
        intro hcon
        rcases Nat.lt_or_ge bid' bid with hlt | hge
        · have : bid' * bsz + bsz ≤ bid * bsz := by
            have h1 : bid' + 1 ≤ bid := hlt
            calc bid' * bsz + bsz = (bid' + 1) * bsz := by ring
              _ ≤ bid * bsz := Nat.mul_le_mul_right bsz h1
          omega
        · have hgt : bid < bid' := Nat.lt_of_le_of_ne hge (fun hc2 => hne hc2.symm)
          have : bid * bsz + bsz ≤ bid' * bsz := by
            have h1 : bid + 1 ≤ bid' := hgt
            calc bid * bsz + bsz = (bid + 1) * bsz := by ring
              _ ≤ bid' * bsz := Nat.mul_le_mul_right bsz h1
          omega
    · apply ih _ _ bid i (List.nodup_cons.mp hnodup).2 ?_ hr hi
      intro b' hb'
      have hc' := hcanon b' (List.mem_cons_of_mem b hb')
      refine ⟨?_, ?_, ?_⟩
      · rw [List.length_set]
        exact hc'.1
      · rw [getBlock_set_keeps_start_offset table b b'
          { getBlock table b with
            status := BlockStatus.FREE, file_id := none, checksum := none } rfl]
        exact hc'.2.1
      · rw [getBlock_set_keeps_size table b b'
          { getBlock table b with
            status := BlockStatus.FREE, file_id := none, checksum := none } rfl]
        exact hc'.2.2

/-- Clearing one valid non-FREE block lowers the non-FREE count by one. -/
theorem countNonFree_set_clear (table : List StorageBlock) (bid : Nat)
    (hlt : bid < table.length)
    (hnf : ¬ ((getBlock table bid).status = BlockStatus.FREE)) :
    ((table.set bid
        { getBlock table bid with
          status := BlockStatus.FREE, file_id := none, checksum := none }).filter
        (fun b => ¬ (b.status = BlockStatus.FREE))).length + 1 =
      (table.filter (fun b => ¬ (b.status = BlockStatus.FREE))).length := by
  have hset := filterLength_set (fun b => ¬ (b.status = BlockStatus.FREE))
    table bid hlt
    { getBlock table bid with
      status := BlockStatus.FREE, file_id := none, checksum := none }
  rw [← getBlock_eq_get table bid hlt] at hset
  simp only [decide_eq_true_eq, decide_not] at hset
  simp [hnf] at hset
  simp only [decide_not]
  omega

/-- `freeLoop` lowers the number of non-FREE blocks by exactly the number of
freed (distinct, valid, currently non-FREE) ids. -/
theorem freeLoop_countNonFree (ids : List Nat) :
    ∀ (table : List StorageBlock) (img : Nat → Nat),
    ids.Nodup →
    (∀ bid ∈ ids, bid < table.length ∧
      ¬ ((getBlock table bid).status = BlockStatus.FREE)) →
    ((freeLoop table img ids).1.filter
        (fun b => ¬ (b.status = BlockStatus.FREE))).length + ids.length =
      (table.filter (fun b => ¬ (b.status = BlockStatus.FREE))).length := by
  induction ids with
  | nil =>
    intro table img _ _
    rfl
  | cons bid rest ih =>
    intro table img hnodup hok
    rw [freeLoop_cons]
    have hbid := hok bid (List.mem_cons_self bid rest)
    have hclear := countNonFree_set_clear table bid hbid.1 hbid.2
    have hih := ih
      (table.set bid
        { getBlock table bid with
          status := BlockStatus.FREE, file_id := none, checksum := none })
      (writeRange img (getBlock table bid).start_offset
        (List.replicate (getBlock table bid).size 0))
      (List.nodup_cons.mp hnodup).2 ?_
    · simp only [List.length_cons]
      dsimp only at hih hclear ⊢
      omega
    · intro bid' hbid'
      have h' := hok bid' (List.mem_cons_of_mem bid hbid')
      have hne : ¬ bid = bid' := by
        intro hc
        exact (List.nodup_cons.mp hnodup).1 (hc ▸ hbid')
      constructor
      · rw [List.length_set]
        exact h'.1
      · rw [getBlock_set table bid bid'
          { getBlock table bid with
            status := BlockStatus.FREE, file_id := none, checksum := none }]
        rw [if_neg (fun hc => hne hc.1)]
        exact h'.2

/-! ## dict structural lemmas -/

theorem dictErase_sublist {α : Type} (d : List (String × α)) (k : String) :
    List.Sublist (dictErase d k) d := by
  induction d with
  | nil => exact List.Sublist.refl []
  | cons p rest ih =>
    by_cases hp : p.1 = k
    · rw [show dictErase (p :: rest) k = dictErase rest k by simp [dictErase, hp]]
      exact List.Sublist.cons p ih
    · rw [show dictErase (p :: rest) k = p :: dictErase rest k by
        simp [dictErase, hp]]
      exact List.Sublist.cons₂ p ih

theorem dictErase_mem {α : Type} (d : List (String × α)) (k : String)
    (q : String × α) (h : q ∈ dictErase d k) : q ∈ d ∧ ¬ (q.1 = k) := by
  induction d with
  | nil => cases h
  | cons p rest ih =>
    by_cases hp : p.1 = k
    · rw [show dictErase (p :: rest) k = dictErase rest k by simp [dictErase, hp]]
        at h
      exact ⟨List.mem_cons_of_mem p (ih h).1, (ih h).2⟩
    · rw [show dictErase (p :: rest) k = p :: dictErase rest k by
        simp [dictErase, hp]] at h
      rcases List.mem_cons.mp h with hq | hq
      · exact ⟨hq ▸ List.mem_cons_self p rest, hq ▸ hp⟩
      · exact ⟨List.mem_cons_of_mem p (ih hq).1, (ih hq).2⟩

theorem dictInsert_mem {α : Type} (d : List (String × α)) (k : String) (v : α)
    (q : String × α) (h : q ∈ dictInsert d k v) : q ∈ d ∨ q = (k, v) := by
  induction d with
  | nil =>
    right
    simpa [dictInsert] using h
  | cons p rest ih =>
    by_cases hp : p.1 = k
    · rw [show dictInsert (p :: rest) k v = (p.1, v) :: rest by
        simp [dictInsert, hp]] at h
      rcases List.mem_cons.mp h with hq | hq
      · right
        rw [hq, hp]
      · exact Or.inl (List.mem_cons_of_mem p hq)
    · rw [show dictInsert (p :: rest) k v = p :: dictInsert rest k v by
        simp [dictInsert, hp]] at h
      rcases List.mem_cons.mp h with hq | hq
      · exact Or.inl (hq ▸ List.mem_cons_self p rest)
      · rcases ih hq with hq1 | hq2
        · exact Or.inl (List.mem_cons_of_mem p hq1)
        · exact Or.inr hq2

theorem dictInsert_keys_subset {α : Type} (d : List (String × α)) (k : String)
    (v : α) :
    ∀ x ∈ (dictInsert d k v).map (fun p => p.1),
      x ∈ d.map (fun p => p.1) ∨ x = k := by
  intro x hx
  obtain ⟨q, hq, hqx⟩ := List.mem_map.mp hx
  rcases dictInsert_mem d k v q hq with hq1 | hq2
  · exact Or.inl (hqx ▸ List.mem_map_of_mem (fun p => p.1) hq1)
  · right
    rw [← hqx, hq2]

theorem dictInsert_keys_nodup {α : Type} (d : List (String × α)) (k : String)
    (v : α) (h : (d.map (fun p => p.1)).Nodup) :
    ((dictInsert d k v).map (fun p => p.1)).Nodup := by
  induction d with
  | nil => simp [dictInsert]
  | cons p rest ih =>
    rw [List.map_cons, List.nodup_cons] at h
    by_cases hp : p.1 = k
    · rw [show dictInsert (p :: rest) k v = (p.1, v) :: rest by
        simp [dictInsert, hp]]
      rw [List.map_cons, List.nodup_cons]
      exact h
    · rw [show dictInsert (p :: rest) k v = p :: dictInsert rest k v by
        simp [dictInsert, hp]]
      rw [List.map_cons, List.nodup_cons]
      constructor
      · intro hc
        rcases dictInsert_keys_subset rest k v p.1 hc with hc1 | hc2
        · exact h.1 hc1
        · exact hp hc2
      · exact ih h.2

theorem dictInsert_pairwise_disjoint (files : List (String × VirtualFile))
    (k : String) (vf : VirtualFile)
    (hpw : List.Pairwise
      (fun p q => ∀ bid ∈ p.2.blocks, bid ∉ q.2.blocks) files)
    (hdisj : ∀ p ∈ files, ∀ bid ∈ vf.blocks, bid ∉ p.2.blocks)
    (hdisj' : ∀ p ∈ files, ∀ bid ∈ p.2.blocks, bid ∉ vf.blocks) :
    List.Pairwise (fun p q => ∀ bid ∈ p.2.blocks, bid ∉ q.2.blocks)
      (dictInsert files k vf) := by
  induction files with
  | nil => simp [dictInsert]
  | cons p rest ih =>
    rw [List.pairwise_cons] at hpw
    by_cases hp : p.1 = k
    · rw [show dictInsert (p :: rest) k vf = (p.1, vf) :: rest by
        simp [dictInsert, hp]]
      rw [List.pairwise_cons]
      constructor
      · intro q hq bid hbid
        exact hdisj q (List.mem_cons_of_mem p hq) bid hbid
      · exact hpw.2
    · rw [show dictInsert (p :: rest) k vf = p :: dictInsert rest k vf by
        simp [dictInsert, hp]]
      rw [List.pairwise_cons]
      constructor
      · intro q hq bid hbid
        rcases dictInsert_mem rest k vf q hq with hq1 | hq2
        · exact hpw.1 q hq1 bid hbid
        · rw [hq2]
          exact hdisj' p (List.mem_cons_self p rest) bid hbid
      · exact ih hpw.2 (fun q hq => hdisj q (List.mem_cons_of_mem p hq))
          (fun q hq => hdisj' q (List.mem_cons_of_mem p hq))

/-! ## Canonical layout lemmas -/

theorem canonical_map_block_id (d : VirtualDisk) (hcanon : BlocksCanonical d) :
    d.blocks.map (fun b => b.block_id) = List.range d.blocks.length := by
  apply List.ext_getElem
  · simp
  · intro i h1 h2
    simp only [List.getElem_map, List.getElem_range]
    have := (hcanon.2 ⟨i, by simpa using h1⟩).1
    simpa [List.get_eq_getElem] using this

/-- The allocate_storage success branch, spelled out. -/
theorem allocate_storage_success (d : VirtualDisk) (fid name : String)
    (size now : Nat)
    (h : ¬ ((d.blocks.filter (fun b => b.status = BlockStatus.FREE)).length <
        (size + d.block_size - 1) / d.block_size)) :
    d.allocate_storage fid name size now =
      (some (markAllocate d.blocks ((size + d.block_size - 1) / d.block_size) fid).2,
       { d with
          blocks := (markAllocate d.blocks
            ((size + d.block_size - 1) / d.block_size) fid).1
          files := dictInsert d.files fid
            { file_id := fid, filename := name, size := size,
              blocks := (markAllocate d.blocks
                ((size + d.block_size - 1) / d.block_size) fid).2,
              created_at := now,
              checksum := md5hexOfString
                (fid ++ "-" ++ name ++ "-" ++ toString size) }
          allocated_blocks := d.allocated_blocks +
            (size + d.block_size - 1) / d.block_size
          used_storage := d.used_storage + size }) := by
  unfold VirtualDisk.allocate_storage
  rw [if_neg h]

/-- The delete_file success branch, spelled out. -/
theorem delete_file_found (d : VirtualDisk) (fid : String) (vf : VirtualFile)
    (hvf : dictFind? d.files fid = some vf) :
    d.delete_file fid =
      (true,
       { d with
          blocks := (freeLoop d.blocks d.image vf.blocks).1
          image := (freeLoop d.blocks d.image vf.blocks).2
          allocated_blocks := d.allocated_blocks - vf.blocks.length
          used_storage := d.used_storage - vf.size
          files := dictErase d.files fid }) := by
  unfold VirtualDisk.delete_file
  rw [hvf]

/-! ## Well-formedness preservation -/

theorem Wf_init (nid : String) (cap bsz : Nat) :
    (VirtualDisk.init nid cap bsz).Wf := by
  refine ⟨⟨?_, ?_⟩, ⟨?_, ?_, ?_⟩, ?_⟩
  · simp [VirtualDisk.init]
  · intro i
    have hi : i.1 < (cap / bsz) := by
      have := i.2
      simpa [VirtualDisk.init] using this
    simp [VirtualDisk.init, List.get_eq_getElem]
  · simp [VirtualDisk.init]
  · intro p hp
    simp [VirtualDisk.init] at hp
  · simp [VirtualDisk.init]
  · unfold countNonFree
    simp only [VirtualDisk.init, List.filter_map]
    have hnil : List.filter
        ((fun b => decide (¬ b.status = BlockStatus.FREE)) ∘ fun i =>
          ({ block_id := i, start_offset := i * bsz, size := bsz,
             status := BlockStatus.FREE, file_id := none,
             checksum := none } : StorageBlock))
        (List.range (cap / bsz)) = [] := by
      apply List.filter_eq_nil.mpr
      intro a ha
      simp
    rw [hnil]
    rfl

theorem Wf_allocate_storage (d : VirtualDisk) (fid name : String)
    (size now : Nat) (hwf : d.Wf) :
    ((d.allocate_storage fid name size now).2).Wf := by
  by_cases h : (d.blocks.filter (fun b => b.status = BlockStatus.FREE)).length <
      (size + d.block_size - 1) / d.block_size
  · rw [show d.allocate_storage fid name size now = (none, d) from by
      unfold VirtualDisk.allocate_storage
      rw [if_pos h]]
    exact hwf
  · rw [allocate_storage_success d fid name size now h]
    dsimp only
    obtain ⟨hcanon, hfiles, hcount⟩ := hwf
    have hmapid := canonical_map_block_id d hcanon
    have hnodup_map : (d.blocks.map (fun b => b.block_id)).Nodup := by
      rw [hmapid]
      exact List.nodup_range _
    have hmap := markAllocate_blocks_map fid d.blocks
      ((size + d.block_size - 1) / d.block_size) hnodup_map
    have hlen : (markAllocate d.blocks
        ((size + d.block_size - 1) / d.block_size) fid).1.length =
        d.blocks.length :=
      markAllocate_length fid d.blocks _
    have hget : ∀ j (hj : j < d.blocks.length),
        getBlock (markAllocate d.blocks
          ((size + d.block_size - 1) / d.block_size) fid).1 j =
          if j ∈ (markAllocate d.blocks
              ((size + d.block_size - 1) / d.block_size) fid).2 then
            { getBlock d.blocks j with
              status := BlockStatus.ALLOCATED, file_id := some fid }
          else getBlock d.blocks j := by
      intro j hj
      have hid : (d.blocks.get ⟨j, hj⟩).block_id = j := (hcanon.2 ⟨j, hj⟩).1
      conv =>
        lhs
        rw [hmap]
      unfold getBlock
      rw [List.get?_map, List.get?_eq_get hj]
      simp only [Option.map_some', Option.getD_some, hid]
    have hstat_old : ∀ j, j ∈ (markAllocate d.blocks
        ((size + d.block_size - 1) / d.block_size) fid).2 →
        j < d.blocks.length ∧
        (getBlock d.blocks j).status = BlockStatus.FREE := by
      intro j hmem
      obtain ⟨b, hb, hid, hfree⟩ :=
        markAllocate_ids_mem_free fid d.blocks _ j hmem
      obtain ⟨i, hi⟩ := List.mem_iff_get.mp hb
      have hij : i.1 = j := by
        have hcid := (hcanon.2 i).1
        rw [hi] at hcid
        rw [← hcid, hid]
      refine ⟨hij ▸ i.2, ?_⟩
      rw [getBlock_eq_get d.blocks j (hij ▸ i.2)]
      have hfin : (⟨j, hij ▸ i.2⟩ : Fin d.blocks.length) = i := by
        apply Fin.ext
        exact hij.symm
      rw [hfin, hi]
      exact hfree
    have hids_nodup : (markAllocate d.blocks
        ((size + d.block_size - 1) / d.block_size) fid).2.Nodup :=
      List.Nodup.sublist (markAllocate_ids_sublist fid d.blocks _) hnodup_map
    have hstat_new : ∀ j (hj : j < d.blocks.length),
        (getBlock (markAllocate d.blocks
          ((size + d.block_size - 1) / d.block_size) fid).1 j).status =
          if j ∈ (markAllocate d.blocks
              ((size + d.block_size - 1) / d.block_size) fid).2 then
            BlockStatus.ALLOCATED
          else (getBlock d.blocks j).status := by
      intro j hj
      rw [hget j hj]
      by_cases hmem : j ∈ (markAllocate d.blocks
          ((size + d.block_size - 1) / d.block_size) fid).2
      · rw [if_pos hmem, if_pos hmem]
      · rw [if_neg hmem, if_neg hmem]
    refine ⟨⟨?_, ?_⟩, ⟨?_, ?_, ?_⟩, ?_⟩
    · rw [hlen]
      exact hcanon.1
    · intro i
      have hi : i.1 < d.blocks.length := by
        rw [← hlen]
        exact i.2
      have h3 := hget i.1 hi
      have hbase := hcanon.2 ⟨i.1, hi⟩
      rw [← getBlock_eq_get d.blocks i.1 hi] at hbase
      rw [← getBlock_eq_get _ i.1 i.2, h3]
      by_cases hmem : i.1 ∈ (markAllocate d.blocks
          ((size + d.block_size - 1) / d.block_size) fid).2
      · rw [if_pos hmem]
        exact hbase
      · rw [if_neg hmem]
        exact hbase
    · exact dictInsert_keys_nodup d.files fid _ hfiles.1
    · intro p hp
      rcases dictInsert_mem d.files fid _ p hp with hold | hnew
      · have hfwf := hfiles.2.1 p hold
        refine ⟨hfwf.1, ?_⟩
        intro bid hbid
        have hprev := hfwf.2 bid hbid
        refine ⟨by rw [hlen]; exact hprev.1, ?_⟩
        rw [hstat_new bid hprev.1]
        by_cases hmem : bid ∈ (markAllocate d.blocks
            ((size + d.block_size - 1) / d.block_size) fid).2
        · rw [if_pos hmem]
          simp
        · rw [if_neg hmem]
          exact hprev.2
      · rw [hnew]
        refine ⟨hids_nodup, ?_⟩
        intro bid hbid
        have hlt := (hstat_old bid hbid).1
        refine ⟨by rw [hlen]; exact hlt, ?_⟩
        rw [hstat_new bid hlt, if_pos hbid]
        simp
    · apply dictInsert_pairwise_disjoint d.files fid _ hfiles.2.2
      · intro p hp bid hbid hc
        have hfree := (hstat_old bid hbid).2
        have hnf := ((hfiles.2.1 p hp).2 bid hc).2
        exact hnf hfree
      · intro p hp bid hbid hc
        have hfree := (hstat_old bid hc).2
        have hnf := ((hfiles.2.1 p hp).2 bid hbid).2
        exact hnf hfree
    · unfold countNonFree
      dsimp only
      have hcnt := markAllocate_countNonFree fid d.blocks
        ((size + d.block_size - 1) / d.block_size) (by omega)
      unfold countNonFree at hcount
      omega

theorem Wf_write_data (d : VirtualDisk) (fid : String) (data : List Nat)
    (offset : Nat) (hwf : d.Wf) : ((d.write_data fid data offset).2).Wf := by
  cases hfind : dictFind? d.files fid with
  | none =>
    rw [show d.write_data fid data offset = (false, d) from by
      unfold VirtualDisk.write_data
      rw [hfind]]
    exact hwf
  | some vf =>
    rw [write_data_found d fid data offset vf hfind]
    dsimp only
    obtain ⟨hcanon, hfiles, hcount⟩ := hwf
    have hmem : (fid, vf) ∈ d.files := dictFind?_mem d.files fid vf hfind
    have hfwf : FileWf d vf := hfiles.2.1 (fid, vf) hmem
    have hW := fun j => writeLoop_getBlock d.block_size
      (vf.blocks.drop (offset / d.block_size)) d.blocks d.image data
      (offset % d.block_size) j
    have hlenW : (writeLoop d.block_size d.blocks d.image
        (vf.blocks.drop (offset / d.block_size)) data
        (offset % d.block_size)).1.length = d.blocks.length :=
      writeLoop_length d.block_size _ d.blocks d.image data _
    have hsub : ∀ bid ∈ vf.blocks.drop (offset / d.block_size),
        bid ∈ vf.blocks := fun bid hbid => (List.drop_sublist _ _).subset hbid
    have hnonfree : ∀ j (hj : j < d.blocks.length),
        ((getBlock (writeLoop d.block_size d.blocks d.image
            (vf.blocks.drop (offset / d.block_size)) data
            (offset % d.block_size)).1 j).status = BlockStatus.FREE ↔
          (getBlock d.blocks j).status = BlockStatus.FREE) := by
      intro j hj
      by_cases hjin : j ∈ vf.blocks.drop (offset / d.block_size)
      · have hjnf := (hfwf.2 j (hsub j hjin)).2
        constructor
        · intro hc
          rcases (hW j).2.2.2.2.2 with hcase | hcase
          · rw [hcase] at hc
            exact absurd hc hjnf
          · rw [hcase] at hc
            cases hc
        · intro hc
          exact absurd hc hjnf
      · rw [(hW j).1 hjin]
    refine ⟨⟨?_, ?_⟩, ⟨hfiles.1, ?_, hfiles.2.2⟩, ?_⟩
    · rw [hlenW]
      exact hcanon.1
    · intro i
      have hi : i.1 < d.blocks.length := by
        rw [← hlenW]
        exact i.2
      have hbase := hcanon.2 ⟨i.1, hi⟩
      rw [← getBlock_eq_get d.blocks i.1 hi] at hbase
      rw [← getBlock_eq_get _ i.1 i.2]
      exact ⟨by rw [(hW i.1).2.1]; exact hbase.1,
        by rw [(hW i.1).2.2.1]; exact hbase.2.1,
        by rw [(hW i.1).2.2.2.1]; exact hbase.2.2⟩
    · intro p hp
      have hfp := hfiles.2.1 p hp
      refine ⟨hfp.1, ?_⟩
      intro bid hbid
      have hprev := hfp.2 bid hbid
      refine ⟨by rw [hlenW]; exact hprev.1, ?_⟩
      intro hc
      exact hprev.2 ((hnonfree bid hprev.1).mp hc)
    · unfold countNonFree
      dsimp only
      unfold countNonFree at hcount
      rw [hcount]
      apply filter_length_congr
      · rw [hlenW]
      · intro i h1 h2
        have hiff := hnonfree i h1
        rw [getBlock_eq_get _ i h2, getBlock_eq_get _ i h1] at hiff
        exact decide_eq_decide.mpr (not_congr hiff.symm)

theorem Wf_delete_file (d : VirtualDisk) (fid : String) (hwf : d.Wf) :
    ((d.delete_file fid).2).Wf := by
  cases hfind : dictFind? d.files fid with
  | none =>
    rw [show d.delete_file fid = (false, d) from by
      unfold VirtualDisk.delete_file
      rw [hfind]]
    exact hwf
  | some vf =>
    rw [delete_file_found d fid vf hfind]
    dsimp only
    obtain ⟨hcanon, hfiles, hcount⟩ := hwf
    have hmem : (fid, vf) ∈ d.files := dictFind?_mem d.files fid vf hfind
    have hfwf : FileWf d vf := hfiles.2.1 (fid, vf) hmem
    have hFL := fun j => freeLoop_getBlock vf.blocks d.blocks d.image j
    have hlenF : (freeLoop d.blocks d.image vf.blocks).1.length =
        d.blocks.length := freeLoop_length vf.blocks d.blocks d.image
    refine ⟨⟨?_, ?_⟩, ⟨?_, ?_, ?_⟩, ?_⟩
    · rw [hlenF]
      exact hcanon.1
    · intro i
      have hi : i.1 < d.blocks.length := by
        rw [← hlenF]
        exact i.2
      have hbase := hcanon.2 ⟨i.1, hi⟩
      rw [← getBlock_eq_get d.blocks i.1 hi] at hbase
      rw [← getBlock_eq_get _ i.1 i.2]
      by_cases hjin : i.1 ∈ vf.blocks
      · rw [(hFL i.1).2 hfwf.1 hjin hi]
        exact hbase
      · rw [(hFL i.1).1 hjin]
        exact hbase
    · exact List.Nodup.sublist
        (List.Sublist.map _ (dictErase_sublist d.files fid)) hfiles.1
    · intro p hp
      have hpin := dictErase_mem d.files fid p hp
      have hfp := hfiles.2.1 p hpin.1
      have hpne : p ≠ (fid, vf) := by
        intro hc
        apply hpin.2
        rw [hc]
      have hsymmRel : Symmetric
          (fun (p q : String × VirtualFile) =>
            ∀ bid ∈ p.2.blocks, bid ∉ q.2.blocks) := by
        intro x y hxy bid hbid hc
        exact hxy bid hc hbid
      have hdisj : ∀ bid ∈ p.2.blocks, bid ∉ vf.blocks := by
        have := List.Pairwise.forall hsymmRel hfiles.2.2 hpin.1 hmem hpne
        exact this
      refine ⟨hfp.1, ?_⟩
      intro bid hbid
      have hprev := hfp.2 bid hbid
      refine ⟨by rw [hlenF]; exact hprev.1, ?_⟩
      rw [(hFL bid).1 (hdisj bid hbid)]
      exact hprev.2
    · exact List.Pairwise.sublist (dictErase_sublist d.files fid) hfiles.2.2
    · unfold countNonFree
      dsimp only
      unfold countNonFree at hcount
      have hfl := freeLoop_countNonFree vf.blocks d.blocks d.image hfwf.1
        (fun bid hbid => (hfwf.2 bid hbid))
      omega

theorem Wf_applyOp (d : VirtualDisk) (op : DiskOp) (hwf : d.Wf) :
    (applyOp d op).Wf := by
  cases op with
  | alloc fid name size now => exact Wf_allocate_storage d fid name size now hwf
  | write fid data offset => exact Wf_write_data d fid data offset hwf
  | read fid size offset => exact hwf
  | delete fid => exact Wf_delete_file d fid hwf

theorem Wf_foldl (ops : List DiskOp) :
    ∀ (d : VirtualDisk), d.Wf → (ops.foldl applyOp d).Wf := by
  induction ops with
  | nil => intro d hwf; exact hwf
  | cons op rest ih =>
    intro d hwf
    exact ih (applyOp d op) (Wf_applyOp d op hwf)

/-! ## Claim C7: counter invariant after every operation sequence -/

/-- C7: starting from a fresh disk, after every sequence of
allocate/write/read/delete operations the counters satisfy
allocated_blocks + free_blocks = total_blocks, and allocated_blocks equals
the number of blocks whose status is not FREE. -/
theorem C7_counters_invariant (nid : String) (cap bsz : Nat)
    (ops : List DiskOp) :
    (ops.foldl applyOp (VirtualDisk.init nid cap bsz)).allocated_blocks +
        (ops.foldl applyOp (VirtualDisk.init nid cap bsz)).free_blocks =
      (ops.foldl applyOp (VirtualDisk.init nid cap bsz)).total_blocks ∧
    (ops.foldl applyOp (VirtualDisk.init nid cap bsz)).allocated_blocks =
      countNonFree (ops.foldl applyOp (VirtualDisk.init nid cap bsz)) := by
  have hwf := Wf_foldl ops (VirtualDisk.init nid cap bsz) (Wf_init nid cap bsz)
  obtain ⟨hcanon, _, hcount⟩ := hwf
  have hle : countNonFree (ops.foldl applyOp (VirtualDisk.init nid cap bsz)) ≤
      (ops.foldl applyOp (VirtualDisk.init nid cap bsz)).total_blocks := by
    unfold countNonFree
    calc ((ops.foldl applyOp (VirtualDisk.init nid cap bsz)).blocks.filter
          (fun b => ¬ (b.status = BlockStatus.FREE))).length ≤
        (ops.foldl applyOp (VirtualDisk.init nid cap bsz)).blocks.length :=
        List.length_filter_le _ _
      _ = (ops.foldl applyOp (VirtualDisk.init nid cap bsz)).total_blocks :=
        hcanon.1
  refine ⟨?_, hcount⟩
  unfold VirtualDisk.free_blocks
  omega

/-- The sequence of (block id of) FREE blocks depends only on each position's
status and block id. -/
theorem filter_free_map_id_congr :
    ∀ (l₁ l₂ : List StorageBlock), l₁.length = l₂.length →
    (∀ i (h₁ : i < l₁.length) (h₂ : i < l₂.length),
      (l₁.get ⟨i, h₁⟩).status = (l₂.get ⟨i, h₂⟩).status ∧
      (l₁.get ⟨i, h₁⟩).block_id = (l₂.get ⟨i, h₂⟩).block_id) →
    (l₁.filter (fun b => b.status = BlockStatus.FREE)).map
        (fun b => b.block_id) =
      (l₂.filter (fun b => b.status = BlockStatus.FREE)).map
        (fun b => b.block_id) := by
  intro l₁
  induction l₁ with
  | nil =>
    intro l₂ hlen _
    cases l₂ with
    | nil => rfl
    | cons b t => simp at hlen
  | cons a l ih =>
    intro l₂ hlen hpt
    cases l₂ with
    | nil => simp at hlen
    | cons b t =>
      have h0 := hpt 0 (by simp) (by simp)
      have htail := ih t (by simpa using hlen)
        (fun i h₁ h₂ => hpt (i + 1) (by simpa using Nat.succ_lt_succ h₁)
          (by simpa using Nat.succ_lt_succ h₂))
      rw [List.filter_cons, List.filter_cons]
      simp only [List.get] at h0
      rw [h0.1]
      by_cases hb : b.status = BlockStatus.FREE
      · simp only [hb, decide_True, if_true, List.map_cons]
        rw [h0.2, htail]
      · simp only [hb, decide_False, if_false]
        exact htail

/-! ## Claim C8: delete frees, clears and zeroes; reallocation reuses blocks -/

/-- C8: on a well-formed disk with enough free blocks, allocate file `f`
(receiving block list `bl`), delete it, and allocate a new file `g` of the
same size.  The delete succeeds and, for every block of `bl`: status FREE,
file id and checksum cleared, and every byte of its region zeroed; the file
record of `f` is gone and allocated_blocks drops by `bl.length`, back to its
pre-allocation value; the second allocation returns exactly the same block
list `bl`, and allocated_blocks returns to its value right after the first
allocation. -/
theorem C8_delete_then_reallocate (d : VirtualDisk) (f g name name2 : String)
    (size now now2 : Nat) (hwf : d.Wf)
    (hfree : (size + d.block_size - 1) / d.block_size ≤
      (d.blocks.filter (fun b => b.status = BlockStatus.FREE)).length) :
    ∀ bl, (d.allocate_storage f name size now).1 = some bl →
    ((((d.allocate_storage f name size now).2).delete_file f).1 = true ∧
      dictFind? ((((d.allocate_storage f name size now).2).delete_file f).2).files f = none ∧
      (∀ bid ∈ bl,
        (getBlock ((((d.allocate_storage f name size now).2).delete_file f).2).blocks bid).status = BlockStatus.FREE ∧
        (getBlock ((((d.allocate_storage f name size now).2).delete_file f).2).blocks bid).file_id = none ∧
        (getBlock ((((d.allocate_storage f name size now).2).delete_file f).2).blocks bid).checksum = none ∧
        (∀ i, i < d.block_size →
          ((((d.allocate_storage f name size now).2).delete_file f).2).image
            (bid * d.block_size + i) = 0)) ∧
      ((((d.allocate_storage f name size now).2).delete_file f).2).allocated_blocks + bl.length =
        ((d.allocate_storage f name size now).2).allocated_blocks ∧
      ((((d.allocate_storage f name size now).2).delete_file f).2).allocated_blocks =
        d.allocated_blocks ∧
      (((((d.allocate_storage f name size now).2).delete_file f).2).allocate_storage
          g name2 size now2).1 = some bl ∧
      ((((((d.allocate_storage f name size now).2).delete_file f).2).allocate_storage
          g name2 size now2).2).allocated_blocks =
        ((d.allocate_storage f name size now).2).allocated_blocks) := by
  intro bl hbl
  have hsucc : ¬ ((d.blocks.filter
      (fun b => b.status = BlockStatus.FREE)).length <
      (size + d.block_size - 1) / d.block_size) := by omega
  have hallocEq := allocate_storage_success d f name size now hsucc
  rw [hallocEq] at hbl
  have hbleq : bl = (markAllocate d.blocks
      ((size + d.block_size - 1) / d.block_size) f).2 :=
    (Option.some.inj hbl).symm
  subst hbleq
  obtain ⟨hcanon, hfiles, hcount⟩ := hwf
  have hmapid := canonical_map_block_id d hcanon
  have hnodup_map : (d.blocks.map (fun b => b.block_id)).Nodup := by
    rw [hmapid]
    exact List.nodup_range _
  have hids_nodup : (markAllocate d.blocks
      ((size + d.block_size - 1) / d.block_size) f).2.Nodup :=
    List.Nodup.sublist (markAllocate_ids_sublist f d.blocks _) hnodup_map
  have hids_len : (markAllocate d.blocks
      ((size + d.block_size - 1) / d.block_size) f).2.length =
      (size + d.block_size - 1) / d.block_size :=
    markAllocate_ids_length f d.blocks _ hfree
  have hlen1 : (markAllocate d.blocks
      ((size + d.block_size - 1) / d.block_size) f).1.length =
      d.blocks.length :=
    markAllocate_length f d.blocks _
  have hmap := markAllocate_blocks_map f d.blocks
    ((size + d.block_size - 1) / d.block_size) hnodup_map
  have hget : ∀ j (hj : j < d.blocks.length),
      getBlock (markAllocate d.blocks
        ((size + d.block_size - 1) / d.block_size) f).1 j =
        if j ∈ (markAllocate d.blocks
            ((size + d.block_size - 1) / d.block_size) f).2 then
          { getBlock d.blocks j with
            status := BlockStatus.ALLOCATED, file_id := some f }
        else getBlock d.blocks j := by
    intro j hj
    have hid : (d.blocks.get ⟨j, hj⟩).block_id = j := (hcanon.2 ⟨j, hj⟩).1
    conv =>
      lhs
      rw [hmap]
    unfold getBlock
    rw [List.get?_map, List.get?_eq_get hj]
    simp only [Option.map_some', Option.getD_some, hid]
  have hstat_old : ∀ j, j ∈ (markAllocate d.blocks
      ((size + d.block_size - 1) / d.block_size) f).2 →
      j < d.blocks.length ∧
      (getBlock d.blocks j).status = BlockStatus.FREE := by
    intro j hmem
    obtain ⟨b, hb, hidb, hfreeb⟩ :=
      markAllocate_ids_mem_free f d.blocks _ j hmem
    obtain ⟨i, hi⟩ := List.mem_iff_get.mp hb
    have hij : i.1 = j := by
      have hcid := (hcanon.2 i).1
      rw [hi] at hcid
      rw [← hcid, hidb]
    refine ⟨hij ▸ i.2, ?_⟩
    rw [getBlock_eq_get d.blocks j (hij ▸ i.2)]
    have hfin : (⟨j, hij ▸ i.2⟩ : Fin d.blocks.length) = i := by
      apply Fin.ext
      exact hij.symm
    rw [hfin, hi]
    exact hfreeb
  rw [hallocEq]
  dsimp only
  have hfound : dictFind? (dictInsert d.files f
      { file_id := f, filename := name, size := size,
        blocks := (markAllocate d.blocks
          ((size + d.block_size - 1) / d.block_size) f).2,
        created_at := now,
        checksum := md5hexOfString (f ++ "-" ++ name ++ "-" ++ toString size) }) f =
      some
        { file_id := f, filename := name, size := size,
          blocks := (markAllocate d.blocks
            ((size + d.block_size - 1) / d.block_size) f).2,
          created_at := now,
          checksum := md5hexOfString (f ++ "-" ++ name ++ "-" ++ toString size) } :=
    dictFind?_insert_self d.files f _
  rw [delete_file_found _ f _ hfound]
  dsimp only
  have hFL := fun j => freeLoop_getBlock (markAllocate d.blocks
      ((size + d.block_size - 1) / d.block_size) f).2
    (markAllocate d.blocks ((size + d.block_size - 1) / d.block_size) f).1
    d.image j
  have hlen2 : (freeLoop (markAllocate d.blocks
      ((size + d.block_size - 1) / d.block_size) f).1 d.image
      (markAllocate d.blocks
        ((size + d.block_size - 1) / d.block_size) f).2).1.length =
      d.blocks.length := by
    rw [freeLoop_length, hlen1]
  have hcanonM : ∀ b ∈ (markAllocate d.blocks
      ((size + d.block_size - 1) / d.block_size) f).2,
      b < (markAllocate d.blocks
        ((size + d.block_size - 1) / d.block_size) f).1.length ∧
      (getBlock (markAllocate d.blocks
        ((size + d.block_size - 1) / d.block_size) f).1 b).start_offset =
        b * d.block_size ∧
      (getBlock (markAllocate d.blocks
        ((size + d.block_size - 1) / d.block_size) f).1 b).size =
        d.block_size := by
    intro b hb
    have hblt := (hstat_old b hb).1
    have hbase := hcanon.2 ⟨b, hblt⟩
    rw [← getBlock_eq_get d.blocks b hblt] at hbase
    refine ⟨by rw [hlen1]; exact hblt, ?_, ?_⟩
    · rw [hget b hblt, if_pos hb]
      exact hbase.2.1
    · rw [hget b hblt, if_pos hb]
      exact hbase.2.2
  have hpt : ∀ i (h₂ : i < (freeLoop (markAllocate d.blocks
        ((size + d.block_size - 1) / d.block_size) f).1 d.image
        (markAllocate d.blocks
          ((size + d.block_size - 1) / d.block_size) f).2).1.length)
      (h₀ : i < d.blocks.length),
      ((freeLoop (markAllocate d.blocks
        ((size + d.block_size - 1) / d.block_size) f).1 d.image
        (markAllocate d.blocks
          ((size + d.block_size - 1) / d.block_size) f).2).1.get ⟨i, h₂⟩).status =
        (d.blocks.get ⟨i, h₀⟩).status ∧
      ((freeLoop (markAllocate d.blocks
        ((size + d.block_size - 1) / d.block_size) f).1 d.image
        (markAllocate d.blocks
          ((size + d.block_size - 1) / d.block_size) f).2).1.get ⟨i, h₂⟩).block_id =
        (d.blocks.get ⟨i, h₀⟩).block_id := by
    intro i h₂ h₀
    rw [← getBlock_eq_get _ i h₂, ← getBlock_eq_get d.blocks i h₀]
    by_cases hmem : i ∈ (markAllocate d.blocks
        ((size + d.block_size - 1) / d.block_size) f).2
    · rw [(hFL i).2 hids_nodup hmem (by rw [hlen1]; exact h₀)]
      rw [hget i h₀, if_pos hmem]
      exact ⟨(hstat_old i hmem).2.symm, rfl⟩
    · rw [(hFL i).1 hmem, hget i h₀, if_neg hmem]
      exact ⟨rfl, rfl⟩
  have hmapfree : ((freeLoop (markAllocate d.blocks
      ((size + d.block_size - 1) / d.block_size) f).1 d.image
      (markAllocate d.blocks
        ((size + d.block_size - 1) / d.block_size) f).2).1.filter
      (fun b => b.status = BlockStatus.FREE)).map (fun b => b.block_id) =
      (d.blocks.filter (fun b => b.status = BlockStatus.FREE)).map
        (fun b => b.block_id) :=
    filter_free_map_id_congr _ d.blocks hlen2 hpt
  have hfreecount2 : ((freeLoop (markAllocate d.blocks
      ((size + d.block_size - 1) / d.block_size) f).1 d.image
      (markAllocate d.blocks
        ((size + d.block_size - 1) / d.block_size) f).2).1.filter
      (fun b => b.status = BlockStatus.FREE)).length =
      (d.blocks.filter (fun b => b.status = BlockStatus.FREE)).length := by
    have h1 := congrArg List.length hmapfree
    rw [List.length_map, List.length_map] at h1
    exact h1
  have hsucc2 : ¬ (((freeLoop (markAllocate d.blocks
      ((size + d.block_size - 1) / d.block_size) f).1 d.image
      (markAllocate d.blocks
        ((size + d.block_size - 1) / d.block_size) f).2).1.filter
      (fun b => b.status = BlockStatus.FREE)).length <
      (size + d.block_size - 1) / d.block_size) := by
    rw [hfreecount2]
    omega
  have hids2 : (markAllocate (freeLoop (markAllocate d.blocks
      ((size + d.block_size - 1) / d.block_size) f).1 d.image
      (markAllocate d.blocks
        ((size + d.block_size - 1) / d.block_size) f).2).1
      ((size + d.block_size - 1) / d.block_size) g).2 =
      (markAllocate d.blocks
        ((size + d.block_size - 1) / d.block_size) f).2 := by
    have hL := markAllocate_ids g (freeLoop (markAllocate d.blocks
        ((size + d.block_size - 1) / d.block_size) f).1 d.image
        (markAllocate d.blocks
          ((size + d.block_size - 1) / d.block_size) f).2).1
      ((size + d.block_size - 1) / d.block_size)
    have hR := markAllocate_ids f d.blocks
      ((size + d.block_size - 1) / d.block_size)
    rw [hL, List.map_take, hmapfree, ← List.map_take, ← hR]
  refine ⟨rfl, dictFind?_erase_self _ f, ?_, ?_, ?_, ?_, ?_⟩
  · intro bid hbid
    have hblt : bid < d.blocks.length := (hstat_old bid hbid).1
    have hcl := (hFL bid).2 hids_nodup hbid (by rw [hlen1]; exact hblt)
    refine ⟨by rw [hcl], by rw [hcl], by rw [hcl], ?_⟩
    intro i hi
    exact freeLoop_image_zero d.block_size _ _ d.image bid i hids_nodup
      hcanonM hbid hi
  · omega
  · omega
  · rw [allocate_storage_success _ g name2 size now2 hsucc2]
    dsimp only
    rw [hids2]
  · rw [allocate_storage_success _ g name2 size now2 hsucc2]
    dsimp only
    omega

/-- Witness for C8: allocate a 20-byte (3-block) file "f" on a fresh 8-block
disk, delete it, then allocate "g" of the same size: "g" reuses blocks
[0, 1, 2] and the counters return to their earlier values. -/
theorem C8_witness :
    (VirtualDisk.init "w" 64 8).Wf ∧
    ((20 + (VirtualDisk.init "w" 64 8).block_size - 1) /
        (VirtualDisk.init "w" 64 8).block_size ≤
      ((VirtualDisk.init "w" 64 8).blocks.filter
        (fun b => b.status = BlockStatus.FREE)).length) ∧
    ((VirtualDisk.init "w" 64 8).allocate_storage "f" "f" 20 0).1 =
      some [0, 1, 2] ∧
    (((((VirtualDisk.init "w" 64 8).allocate_storage "f" "f" 20 0).2).delete_file "f").1 = true ∧
      dictFind? (((((VirtualDisk.init "w" 64 8).allocate_storage "f" "f" 20 0).2).delete_file "f").2).files "f" = none ∧
      (∀ bid ∈ [0, 1, 2],
        (getBlock (((((VirtualDisk.init "w" 64 8).allocate_storage "f" "f" 20 0).2).delete_file "f").2).blocks bid).status = BlockStatus.FREE ∧
        (getBlock (((((VirtualDisk.init "w" 64 8).allocate_storage "f" "f" 20 0).2).delete_file "f").2).blocks bid).file_id = none ∧
        (getBlock (((((VirtualDisk.init "w" 64 8).allocate_storage "f" "f" 20 0).2).delete_file "f").2).blocks bid).checksum = none ∧
        (∀ i, i < (VirtualDisk.init "w" 64 8).block_size →
          (((((VirtualDisk.init "w" 64 8).allocate_storage "f" "f" 20 0).2).delete_file "f").2).image
            (bid * (VirtualDisk.init "w" 64 8).block_size + i) = 0)) ∧
      (((((VirtualDisk.init "w" 64 8).allocate_storage "f" "f" 20 0).2).delete_file "f").2).allocated_blocks + ([0, 1, 2] : List Nat).length =
        (((VirtualDisk.init "w" 64 8).allocate_storage "f" "f" 20 0).2).allocated_blocks ∧
      (((((VirtualDisk.init "w" 64 8).allocate_storage "f" "f" 20 0).2).delete_file "f").2).allocated_blocks =
        (VirtualDisk.init "w" 64 8).allocated_blocks ∧
      ((((((VirtualDisk.init "w" 64 8).allocate_storage "f" "f" 20 0).2).delete_file "f").2).allocate_storage
          "g" "g" 20 1).1 = some [0, 1, 2] ∧
      (((((((VirtualDisk.init "w" 64 8).allocate_storage "f" "f" 20 0).2).delete_file "f").2).allocate_storage
          "g" "g" 20 1).2).allocated_blocks =
        (((VirtualDisk.init "w" 64 8).allocate_storage "f" "f" 20 0).2).allocated_blocks) := by
  refine ⟨by decide, by decide, by decide, ?_⟩
  exact C8_delete_then_reallocate (VirtualDisk.init "w" 64 8) "f" "g" "f" "g"
    20 0 1 (by decide) (by decide) [0, 1, 2] (by decide)

/-- Full-block round trip with an over-long read request: when the written
data exactly fills the run of blocks, a read of any size at least the data
length returns exactly the data (the read stops at the last owned block). -/
theorem writeLoop_readLoop_full (bs : Nat) (hbs : 0 < bs) (ids : List Nat) :
    ∀ (table : List StorageBlock) (img : Nat → Nat) (data : List Nat)
      (s : Nat),
    ids.Nodup →
    (∀ bid ∈ ids, bid < table.length ∧
      (getBlock table bid).start_offset = bid * bs) →
    data.length = ids.length * bs →
    data.length ≤ s →
    readLoop bs (writeLoop bs table img ids data 0).1
      (writeLoop bs table img ids data 0).2 ids s 0 = data := by
  induction ids with
  | nil =>
    intro table img data s _ _ hlen _
    have h0 : ([] : List Nat).length * bs = 0 := by simp
    rw [h0] at hlen
    have hd : data = [] := List.length_eq_zero.mp hlen
    subst hd
    rfl
  | cons bid rest ih =>
    intro table img data s hnodup hcanon hlen hs
    have hbid := hcanon bid (List.mem_cons_self bid rest)
    have hconslen : (bid :: rest).length = rest.length + 1 := rfl
    have hmul : (rest.length + 1) * bs = rest.length * bs + bs := by ring
    rw [hconslen, hmul] at hlen
    have hdlen : ¬ data.length = 0 := by omega
    have hslen : ¬ s = 0 := by omega
    have hmin : min data.length (bs - 0) = bs := by
      simp only [Nat.sub_zero]
      omega
    have hmins : min s (bs - 0) = bs := by
      simp only [Nat.sub_zero]
      omega
    rw [writeLoop_cons_go bs table img bid rest data 0 hdlen]
    rw [hmin]
    set upd : StorageBlock :=
      { getBlock table bid with
        status := BlockStatus.OCCUPIED,
        checksum := some (md5hex (data.take bs)) }
      with hupd
    have hskel := writeLoop_getBlock bs rest (table.set bid upd)
      (writeRange img ((getBlock table bid).start_offset + 0) (data.take bs))
      (data.drop bs) 0 bid
    have hstart : (getBlock (writeLoop bs (table.set bid upd)
        (writeRange img ((getBlock table bid).start_offset + 0) (data.take bs))
        rest (data.drop bs) 0).1 bid).start_offset = bid * bs := by
      rw [hskel.2.2.1]
      rw [getBlock_set_keeps_start_offset table bid bid upd rfl]
      exact hbid.2
    rw [readLoop_cons_go bs _ _ bid rest s 0 hslen, hstart, hmins]
    have hfirst :
        readRange (writeLoop bs (table.set bid upd)
          (writeRange img ((getBlock table bid).start_offset + 0) (data.take bs))
          rest (data.drop bs) 0).2 (bid * bs + 0) bs = data.take bs := by
      have huntouched :
          ∀ i, i < bs →
            (writeLoop bs (table.set bid upd)
              (writeRange img ((getBlock table bid).start_offset + 0)
                (data.take bs))
              rest (data.drop bs) 0).2 (bid * bs + 0 + i) =
            writeRange img ((getBlock table bid).start_offset + 0)
              (data.take bs) (bid * bs + 0 + i) := by
        intro i hi
        apply writeLoop_image_outside bs rest _ _ _ 0 _ (Nat.zero_le bs)
        intro bid' hbid'
        have hb' := hcanon bid' (List.mem_cons_of_mem bid hbid')
        rw [getBlock_set_keeps_start_offset table bid bid' upd rfl, hb'.2]
        have hne : ¬ bid' = bid := by
          intro hc
          exact (List.nodup_cons.mp hnodup).1 (hc ▸ hbid')
        intro hc
        rcases Nat.lt_or_ge bid' bid with hlt | hge
        · have : bid' * bs + bs ≤ bid * bs := by
            have h1 : bid' + 1 ≤ bid := hlt
            calc bid' * bs + bs = (bid' + 1) * bs := by ring
              _ ≤ bid * bs := Nat.mul_le_mul_right bs h1
          omega
        · have hgt : bid < bid' := Nat.lt_of_le_of_ne hge
            (fun hc2 => hne hc2.symm)
          have : bid * bs + bs ≤ bid' * bs := by
            have h1 : bid + 1 ≤ bid' := hgt
            calc bid * bs + bs = (bid + 1) * bs := by ring
              _ ≤ bid' * bs := Nat.mul_le_mul_right bs h1
          omega
      rw [readRange_congr _ (writeRange img
        ((getBlock table bid).start_offset + 0) (data.take bs)) _ _ huntouched]
      have hlent : (data.take bs).length = bs := by
        rw [List.length_take]
        omega
      rw [hbid.2]
      have hr := readRange_writeRange_self img (bid * bs + 0) (data.take bs)
      rw [hlent] at hr
      exact hr
    rw [hfirst]
    have hrest : readLoop bs (writeLoop bs (table.set bid upd)
        (writeRange img ((getBlock table bid).start_offset + 0) (data.take bs))
        rest (data.drop bs) 0).1
        (writeLoop bs (table.set bid upd)
          (writeRange img ((getBlock table bid).start_offset + 0)
            (data.take bs))
          rest (data.drop bs) 0).2 rest (s - bs) 0 = data.drop bs := by
      apply ih _ _ _ _ (List.nodup_cons.mp hnodup).2
      · intro bid' hbid'
        have hb' := hcanon bid' (List.mem_cons_of_mem bid hbid')
        constructor
        · rw [List.length_set]
          exact hb'.1
        · rw [getBlock_set_keeps_start_offset table bid bid' upd rfl]
          exact hb'.2
      · rw [List.length_drop]
        omega
      · rw [List.length_drop]
        omega
    rw [hrest]
    exact List.take_append_drop bs data

/-- Pointwise description of the block table after `markAllocate` on a
canonical disk. -/
theorem markAllocate_getBlock_canonical (d : VirtualDisk)
    (hcanon : BlocksCanonical d) (n : Nat) (fid : String) :
    ∀ j, j < d.blocks.length →
      getBlock (markAllocate d.blocks n fid).1 j =
        if j ∈ (markAllocate d.blocks n fid).2 then
          { getBlock d.blocks j with
            status := BlockStatus.ALLOCATED, file_id := some fid }
        else getBlock d.blocks j := by
  have hnodup_map : (d.blocks.map (fun b => b.block_id)).Nodup := by
    rw [canonical_map_block_id d hcanon]
    exact List.nodup_range _
  have hmap := markAllocate_blocks_map fid d.blocks n hnodup_map
  intro j hj
  have hid : (d.blocks.get ⟨j, hj⟩).block_id = j := (hcanon.2 ⟨j, hj⟩).1
  conv =>
    lhs
    rw [hmap]
  unfold getBlock
  rw [List.get?_map, List.get?_eq_get hj]
  simp only [Option.map_some', Option.getD_some, hid]

/-- On a canonical disk, the ids handed out by `markAllocate` denote valid,
currently FREE blocks. -/
theorem markAllocate_ids_free_canonical (d : VirtualDisk)
    (hcanon : BlocksCanonical d) (n : Nat) (fid : String) :
    ∀ j ∈ (markAllocate d.blocks n fid).2,
      j < d.blocks.length ∧
      (getBlock d.blocks j).status = BlockStatus.FREE := by
  intro j hmem
  obtain ⟨b, hb, hidb, hfreeb⟩ := markAllocate_ids_mem_free fid d.blocks n j hmem
  obtain ⟨i, hi⟩ := List.mem_iff_get.mp hb
  have hij : i.1 = j := by
    have hcid := (hcanon.2 i).1
    rw [hi] at hcid
    rw [← hcid, hidb]
  refine ⟨hij ▸ i.2, ?_⟩
  rw [getBlock_eq_get d.blocks j (hij ▸ i.2)]
  have hfin : (⟨j, hij ▸ i.2⟩ : Fin d.blocks.length) = i := by
    apply Fin.ext
    exact hij.symm
  rw [hfin, hi]
  exact hfreeb

/-- On a canonical disk, the handed-out id list is duplicate-free. -/
theorem markAllocate_ids_nodup_canonical (d : VirtualDisk)
    (hcanon : BlocksCanonical d) (n : Nat) (fid : String) :
    (markAllocate d.blocks n fid).2.Nodup := by
  have hnodup_map : (d.blocks.map (fun b => b.block_id)).Nodup := by
    rw [canonical_map_block_id d hcanon]
    exact List.nodup_range _
  exact List.Nodup.sublist (markAllocate_ids_sublist fid d.blocks n) hnodup_map

/-- FREE and non-FREE blocks partition the table. -/
theorem free_nonfree_partition (l : List StorageBlock) :
    (l.filter (fun b => b.status = BlockStatus.FREE)).length +
      (l.filter (fun b => ¬ (b.status = BlockStatus.FREE))).length =
    l.length := by
  induction l with
  | nil => rfl
  | cons b t ih =>
    by_cases h : b.status = BlockStatus.FREE
    · simp only [List.filter_cons, h]
      simp [h] at *
      omega
    · simp only [List.filter_cons]
      simp [h] at *
      omega

/-- Membership in an updated dict with duplicate-free keys: either an
untouched old binding (with a different key) or the new binding. -/
theorem dictInsert_mem_nodup {α : Type} (d : List (String × α)) (k : String)
    (v : α) (hnd : (d.map (fun p => p.1)).Nodup) (q : String × α)
    (h : q ∈ dictInsert d k v) : (q ∈ d ∧ ¬ (q.1 = k)) ∨ q = (k, v) := by
  induction d with
  | nil =>
    right
    simpa [dictInsert] using h
  | cons p rest ih =>
    rw [List.map_cons, List.nodup_cons] at hnd
    by_cases hp : p.1 = k
    · rw [show dictInsert (p :: rest) k v = (p.1, v) :: rest by
        simp [dictInsert, hp]] at h
      rcases List.mem_cons.mp h with hq | hq
      · right
        rw [hq, hp]
      · left
        refine ⟨List.mem_cons_of_mem p hq, ?_⟩
        intro hc
        apply hnd.1
        rw [hp, ← hc]
        exact List.mem_map_of_mem (fun p => p.1) hq
    · rw [show dictInsert (p :: rest) k v = p :: dictInsert rest k v by
        simp [dictInsert, hp]] at h
      rcases List.mem_cons.mp h with hq | hq
      · left
        exact ⟨hq ▸ List.mem_cons_self p rest, hq ▸ hp⟩
      · rcases ih hnd.2 hq with hq1 | hq2
        · exact Or.inl ⟨List.mem_cons_of_mem p hq1.1, hq1.2⟩
        · exact Or.inr hq2

/-- `store_file_chunk` on a matching checksum with enough free blocks:
success reply carrying the allocated block ids, and the state obtained by
allocating then writing under the storage id `fid ++ "_chunk"`. -/
theorem storeFileChunk_success_eq (d : VirtualDisk) (fid : String)
    (chunk : List Nat) (now : Nat)
    (hfree : ¬ ((d.blocks.filter (fun b => b.status = BlockStatus.FREE)).length <
      (chunk.length + d.block_size - 1) / d.block_size)) :
    storeFileChunk d fid chunk (md5hex chunk) now =
      ({ success := true, error := none,
         blocks := some (markAllocate d.blocks
           ((chunk.length + d.block_size - 1) / d.block_size)
           (fid ++ "_chunk")).2 },
       (((d.allocate_storage (fid ++ "_chunk") (fid ++ "_chunk")
           chunk.length now).2).write_data (fid ++ "_chunk") chunk 0).2) := by
  unfold storeFileChunk
  rw [if_neg (fun hc => hc rfl)]
  rw [allocate_storage_success d (fid ++ "_chunk") (fid ++ "_chunk")
    chunk.length now hfree]
  dsimp only
  rw [write_data_found _ (fid ++ "_chunk") chunk 0 _
    (dictFind?_insert_self d.files (fid ++ "_chunk")
      { file_id := fid ++ "_chunk", filename := fid ++ "_chunk",
        size := chunk.length,
        blocks := (markAllocate d.blocks
          ((chunk.length + d.block_size - 1) / d.block_size)
          (fid ++ "_chunk")).2,
        created_at := now,
        checksum := md5hexOfString ((fid ++ "_chunk") ++ "-" ++
          (fid ++ "_chunk") ++ "-" ++ toString chunk.length) })]
  dsimp only
  rw [if_pos rfl]

/-- Field-level description of the state after a successful
allocate-then-write under storage id `fc` (the body of `store_file_chunk`). -/
theorem storeState_fields (d : VirtualDisk) (fc : String) (chunk : List Nat)
    (now : Nat)
    (hfree : ¬ ((d.blocks.filter (fun b => b.status = BlockStatus.FREE)).length <
      (chunk.length + d.block_size - 1) / d.block_size)) :
    ((((d.allocate_storage fc fc chunk.length now).2).write_data fc chunk 0).2).files =
      dictInsert d.files fc
        { file_id := fc, filename := fc, size := chunk.length,
          blocks := (markAllocate d.blocks
            ((chunk.length + d.block_size - 1) / d.block_size) fc).2,
          created_at := now,
          checksum := md5hexOfString
            (fc ++ "-" ++ fc ++ "-" ++ toString chunk.length) } ∧
    ((((d.allocate_storage fc fc chunk.length now).2).write_data fc chunk 0).2).block_size =
      d.block_size ∧
    ((((d.allocate_storage fc fc chunk.length now).2).write_data fc chunk 0).2).allocated_blocks =
      d.allocated_blocks + (chunk.length + d.block_size - 1) / d.block_size ∧
    ((((d.allocate_storage fc fc chunk.length now).2).write_data fc chunk 0).2).blocks =
      (writeLoop d.block_size
        (markAllocate d.blocks
          ((chunk.length + d.block_size - 1) / d.block_size) fc).1
        d.image
        ((markAllocate d.blocks
          ((chunk.length + d.block_size - 1) / d.block_size) fc).2.drop
          (0 / d.block_size))
        chunk (0 % d.block_size)).1 ∧
    ((((d.allocate_storage fc fc chunk.length now).2).write_data fc chunk 0).2).image =
      (writeLoop d.block_size
        (markAllocate d.blocks
          ((chunk.length + d.block_size - 1) / d.block_size) fc).1
        d.image
        ((markAllocate d.blocks
          ((chunk.length + d.block_size - 1) / d.block_size) fc).2.drop
          (0 / d.block_size))
        chunk (0 % d.block_size)).2 ∧
    ((d.allocate_storage fc fc chunk.length now).2).blocks =
      (markAllocate d.blocks
        ((chunk.length + d.block_size - 1) / d.block_size) fc).1 ∧
    ((d.allocate_storage fc fc chunk.length now).2).block_size = d.block_size := by
  rw [allocate_storage_success d fc fc chunk.length now hfree]
  dsimp only
  rw [write_data_found _ fc chunk 0 _
    (dictFind?_insert_self d.files fc
      { file_id := fc, filename := fc, size := chunk.length,
        blocks := (markAllocate d.blocks
          ((chunk.length + d.block_size - 1) / d.block_size) fc).2,
        created_at := now,
        checksum := md5hexOfString
          (fc ++ "-" ++ fc ++ "-" ++ toString chunk.length) })]
  dsimp only
  exact ⟨rfl, rfl, rfl, rfl, rfl, rfl, rfl⟩

/-- C9 (implicit): `store_file_chunk` derives the local storage id as
`file_id ++ "_chunk"` — the same string for every chunk of one distributed
file.  Hence when one node receives two chunks `c1` then `c2` of the same
file (enough free blocks for both; `c2` filling whole blocks and at most
1 MiB): both stores report success with block lists `bl1`, `bl2`, but the
second store's record under the single key `file_id ++ "_chunk"` replaces
the first's; a subsequent `retrieve_file_chunk file_id` returns only `c2`'s
bytes; and every block of `bl1` — FREE before the first store — remains
non-FREE afterwards, counted in `allocated_blocks` (which grows by
`bl1.length + bl2.length` in total) yet owned by no file record: a storage
leak. -/
theorem C9_chunk_id_collision_overwrites_and_leaks (d : VirtualDisk)
    (fid : String) (c1 c2 : List Nat) (now1 now2 : Nat)
    (hwf : d.Wf) (hbs : 0 < d.block_size)
    (hfree : (c1.length + d.block_size - 1) / d.block_size +
        (c2.length + d.block_size - 1) / d.block_size ≤
      (d.blocks.filter (fun b => b.status = BlockStatus.FREE)).length)
    (hc2len : c2.length =
      ((c2.length + d.block_size - 1) / d.block_size) * d.block_size)
    (hc2cap : c2.length ≤ 1024 * 1024) :
    ∀ r1 d1, storeFileChunk d fid c1 (md5hex c1) now1 = (r1, d1) →
    ∀ r2 d2, storeFileChunk d1 fid c2 (md5hex c2) now2 = (r2, d2) →
    ∃ bl1 bl2,
      r1 = { success := true, error := none, blocks := some bl1 } ∧
      r2 = { success := true, error := none, blocks := some bl2 } ∧
      (∃ vf1, dictFind? d1.files (fid ++ "_chunk") = some vf1 ∧
        vf1.blocks = bl1) ∧
      (∃ vf2, dictFind? d2.files (fid ++ "_chunk") = some vf2 ∧
        vf2.blocks = bl2) ∧
      retrieveFileChunk d2 fid =
        { success := true, error := none, chunk_bytes := some c2,
          chunk_hash := some (md5hex c2), size := some c2.length } ∧
      bl1.length = (c1.length + d.block_size - 1) / d.block_size ∧
      bl2.length = (c2.length + d.block_size - 1) / d.block_size ∧
      (∀ bid ∈ bl1,
        (getBlock d.blocks bid).status = BlockStatus.FREE ∧
        ¬ (bid ∈ bl2) ∧
        ¬ ((getBlock d2.blocks bid).status = BlockStatus.FREE) ∧
        ∀ p ∈ d2.files, ¬ (bid ∈ p.2.blocks)) ∧
      d2.allocated_blocks = d.allocated_blocks + bl1.length + bl2.length := by
  intro r1 d1 h1 r2 d2 h2
  have hsucc1 : ¬ ((d.blocks.filter
      (fun b => b.status = BlockStatus.FREE)).length <
      (c1.length + d.block_size - 1) / d.block_size) :=
    Nat.not_lt.mpr (Nat.le_trans (Nat.le_add_right _ _) hfree)
  rw [storeFileChunk_success_eq d fid c1 now1 hsucc1] at h1
  injection h1 with hr1 hd1
  subst hd1
  subst hr1
  obtain ⟨hD1files, hD1bs, hD1alloc, hD1blocks, _, _, _⟩ :=
    storeState_fields d (fid ++ "_chunk") c1 now1 hsucc1
  have hwf1 : ((((d.allocate_storage (fid ++ "_chunk") (fid ++ "_chunk") c1.length now1).2).write_data (fid ++ "_chunk") c1 0).2).Wf :=
    Wf_write_data _ (fid ++ "_chunk") c1 0
      (Wf_allocate_storage d (fid ++ "_chunk") (fid ++ "_chunk")
        c1.length now1 hwf)
  have hcanon1 : BlocksCanonical
      ((((d.allocate_storage (fid ++ "_chunk") (fid ++ "_chunk") c1.length now1).2).write_data (fid ++ "_chunk") c1 0).2) := hwf1.1
  have hcount1 := hwf1.2.2
  have hcountd := hwf.2.2
  unfold countNonFree at hcount1 hcountd
  have hlen1 : ((((d.allocate_storage (fid ++ "_chunk") (fid ++ "_chunk") c1.length now1).2).write_data (fid ++ "_chunk") c1 0).2).blocks.length =
      d.blocks.length := by
    rw [hD1blocks, writeLoop_length, markAllocate_length]
  have hpart1 := free_nonfree_partition
    ((((d.allocate_storage (fid ++ "_chunk") (fid ++ "_chunk") c1.length now1).2).write_data (fid ++ "_chunk") c1 0).2).blocks
  have hpartd := free_nonfree_partition d.blocks
  have hfree2d : (c2.length + d.block_size - 1) / d.block_size ≤
      (((((d.allocate_storage (fid ++ "_chunk") (fid ++ "_chunk") c1.length now1).2).write_data (fid ++ "_chunk") c1 0).2).blocks.filter
        (fun b => b.status = BlockStatus.FREE)).length := by
    revert hfree hpart1 hpartd hcount1 hcountd hD1alloc hlen1
    generalize (c1.length + d.block_size - 1) / d.block_size = x
    generalize (c2.length + d.block_size - 1) / d.block_size = y
    intro h1 h2 h3 h4 h5 h6 h7
    omega
  have hfree2 : ¬ ((((((d.allocate_storage (fid ++ "_chunk") (fid ++ "_chunk") c1.length now1).2).write_data (fid ++ "_chunk") c1 0).2).blocks.filter
        (fun b => b.status = BlockStatus.FREE)).length <
      (c2.length + ((((d.allocate_storage (fid ++ "_chunk") (fid ++ "_chunk") c1.length now1).2).write_data (fid ++ "_chunk") c1 0).2).block_size - 1) /
        ((((d.allocate_storage (fid ++ "_chunk") (fid ++ "_chunk") c1.length now1).2).write_data (fid ++ "_chunk") c1 0).2).block_size) := by
    rw [hD1bs]
    exact Nat.not_lt.mpr hfree2d
  have hstore2 := storeFileChunk_success_eq
    ((((d.allocate_storage (fid ++ "_chunk") (fid ++ "_chunk") c1.length now1).2).write_data (fid ++ "_chunk") c1 0).2)
    fid c2 now2 hfree2
  rw [hD1bs] at hstore2
  rw [hstore2] at h2
  injection h2 with hr2 hd2
  subst hd2
  subst hr2
  obtain ⟨hD2files, hD2bs, hD2alloc, hD2blocks, hD2image, _, _⟩ :=
    storeState_fields
      ((((d.allocate_storage (fid ++ "_chunk") (fid ++ "_chunk") c1.length now1).2).write_data (fid ++ "_chunk") c1 0).2)
      (fid ++ "_chunk") c2 now2 hfree2
  rw [hD1bs] at hD2files hD2bs hD2alloc hD2blocks hD2image
  rw [Nat.zero_div, Nat.zero_mod, List.drop_zero] at hD2blocks hD2image
  have hfind1 : dictFind?
      (((((d.allocate_storage (fid ++ "_chunk") (fid ++ "_chunk") c1.length now1).2).write_data (fid ++ "_chunk") c1 0).2).files)
      (fid ++ "_chunk") = some
      { file_id := fid ++ "_chunk", filename := fid ++ "_chunk",
        size := c1.length,
        blocks := (markAllocate d.blocks
          ((c1.length + d.block_size - 1) / d.block_size)
          (fid ++ "_chunk")).2,
        created_at := now1,
        checksum := md5hexOfString ((fid ++ "_chunk") ++ "-" ++
          (fid ++ "_chunk") ++ "-" ++ toString c1.length) } := by
    rw [hD1files]
    exact dictFind?_insert_self _ _ _
  have hfind2 : dictFind?
      ((((((((d.allocate_storage (fid ++ "_chunk") (fid ++ "_chunk") c1.length now1).2).write_data (fid ++ "_chunk") c1 0).2).allocate_storage
        (fid ++ "_chunk") (fid ++ "_chunk") c2.length now2).2).write_data
        (fid ++ "_chunk") c2 0).2).files
      (fid ++ "_chunk") = some
      { file_id := fid ++ "_chunk", filename := fid ++ "_chunk",
        size := c2.length,
        blocks := (markAllocate
          ((((d.allocate_storage (fid ++ "_chunk") (fid ++ "_chunk") c1.length now1).2).write_data (fid ++ "_chunk") c1 0).2).blocks
          ((c2.length + d.block_size - 1) / d.block_size)
          (fid ++ "_chunk")).2,
        created_at := now2,
        checksum := md5hexOfString ((fid ++ "_chunk") ++ "-" ++
          (fid ++ "_chunk") ++ "-" ++ toString c2.length) } := by
    rw [hD2files]
    exact dictFind?_insert_self _ _ _
  have hids_len2 : (markAllocate
      ((((d.allocate_storage (fid ++ "_chunk") (fid ++ "_chunk") c1.length now1).2).write_data (fid ++ "_chunk") c1 0).2).blocks
      ((c2.length + d.block_size - 1) / d.block_size)
      (fid ++ "_chunk")).2.length =
      (c2.length + d.block_size - 1) / d.block_size :=
    markAllocate_ids_length _ _ _ hfree2d
  have hids_nodup2 : (markAllocate
      ((((d.allocate_storage (fid ++ "_chunk") (fid ++ "_chunk") c1.length now1).2).write_data (fid ++ "_chunk") c1 0).2).blocks
      ((c2.length + d.block_size - 1) / d.block_size)
      (fid ++ "_chunk")).2.Nodup :=
    markAllocate_ids_nodup_canonical _ hcanon1 _ _
  have hcan2 : ∀ bid ∈ (markAllocate
      ((((d.allocate_storage (fid ++ "_chunk") (fid ++ "_chunk") c1.length now1).2).write_data (fid ++ "_chunk") c1 0).2).blocks
      ((c2.length + d.block_size - 1) / d.block_size) (fid ++ "_chunk")).2,
      bid < (markAllocate
        ((((d.allocate_storage (fid ++ "_chunk") (fid ++ "_chunk") c1.length now1).2).write_data (fid ++ "_chunk") c1 0).2).blocks
        ((c2.length + d.block_size - 1) / d.block_size)
        (fid ++ "_chunk")).1.length ∧
      (getBlock (markAllocate
        ((((d.allocate_storage (fid ++ "_chunk") (fid ++ "_chunk") c1.length now1).2).write_data (fid ++ "_chunk") c1 0).2).blocks
        ((c2.length + d.block_size - 1) / d.block_size)
        (fid ++ "_chunk")).1 bid).start_offset = bid * d.block_size := by
    intro bid hbid
    have hfr := markAllocate_ids_free_canonical _ hcanon1
      ((c2.length + d.block_size - 1) / d.block_size) (fid ++ "_chunk")
      bid hbid
    constructor
    · rw [markAllocate_length]
      exact hfr.1
    · rw [markAllocate_getBlock_canonical _ hcanon1
        ((c2.length + d.block_size - 1) / d.block_size) (fid ++ "_chunk")
        bid hfr.1]
      rw [if_pos hbid]
      dsimp only
      rw [getBlock_eq_get _ bid hfr.1]
      rw [(hcanon1.2 ⟨bid, hfr.1⟩).2.1]
      rw [hD1bs]
  have hreadfull : readLoop d.block_size
      (writeLoop d.block_size
        (markAllocate
          ((((d.allocate_storage (fid ++ "_chunk") (fid ++ "_chunk") c1.length now1).2).write_data (fid ++ "_chunk") c1 0).2).blocks
          ((c2.length + d.block_size - 1) / d.block_size)
          (fid ++ "_chunk")).1
        ((((d.allocate_storage (fid ++ "_chunk") (fid ++ "_chunk") c1.length now1).2).write_data (fid ++ "_chunk") c1 0).2).image
        (markAllocate
          ((((d.allocate_storage (fid ++ "_chunk") (fid ++ "_chunk") c1.length now1).2).write_data (fid ++ "_chunk") c1 0).2).blocks
          ((c2.length + d.block_size - 1) / d.block_size)
          (fid ++ "_chunk")).2 c2 0).1
      (writeLoop d.block_size
        (markAllocate
          ((((d.allocate_storage (fid ++ "_chunk") (fid ++ "_chunk") c1.length now1).2).write_data (fid ++ "_chunk") c1 0).2).blocks
          ((c2.length + d.block_size - 1) / d.block_size)
          (fid ++ "_chunk")).1
        ((((d.allocate_storage (fid ++ "_chunk") (fid ++ "_chunk") c1.length now1).2).write_data (fid ++ "_chunk") c1 0).2).image
        (markAllocate
          ((((d.allocate_storage (fid ++ "_chunk") (fid ++ "_chunk") c1.length now1).2).write_data (fid ++ "_chunk") c1 0).2).blocks
          ((c2.length + d.block_size - 1) / d.block_size)
          (fid ++ "_chunk")).2 c2 0).2
      (markAllocate
        ((((d.allocate_storage (fid ++ "_chunk") (fid ++ "_chunk") c1.length now1).2).write_data (fid ++ "_chunk") c1 0).2).blocks
        ((c2.length + d.block_size - 1) / d.block_size)
        (fid ++ "_chunk")).2 (1024 * 1024) 0 = c2 := by
    refine writeLoop_readLoop_full d.block_size hbs _ _ _ c2 (1024 * 1024)
      hids_nodup2 hcan2 ?_ ?_
    · rw [hids_len2]
      exact hc2len
    · exact hc2cap
  have hread := read_data_found
    (((((((d.allocate_storage (fid ++ "_chunk") (fid ++ "_chunk") c1.length now1).2).write_data (fid ++ "_chunk") c1 0).2).allocate_storage
      (fid ++ "_chunk") (fid ++ "_chunk") c2.length now2).2).write_data
      (fid ++ "_chunk") c2 0).2
    (fid ++ "_chunk") (1024 * 1024) 0 _ hfind2
  rw [hD2bs] at hread
  rw [Nat.zero_div, Nat.zero_mod, List.drop_zero] at hread
  dsimp only at hread
  rw [hD2blocks, hD2image] at hread
  rw [hreadfull] at hread
  have hle1 : (c1.length + d.block_size - 1) / d.block_size ≤
      (d.blocks.filter (fun b => b.status = BlockStatus.FREE)).length :=
    Nat.le_trans (Nat.le_add_right _ _) hfree
  have hids_len1 : (markAllocate d.blocks
      ((c1.length + d.block_size - 1) / d.block_size)
      (fid ++ "_chunk")).2.length =
      (c1.length + d.block_size - 1) / d.block_size :=
    markAllocate_ids_length _ _ _ hle1
  refine ⟨(markAllocate d.blocks
      ((c1.length + d.block_size - 1) / d.block_size) (fid ++ "_chunk")).2,
    (markAllocate
      ((((d.allocate_storage (fid ++ "_chunk") (fid ++ "_chunk") c1.length now1).2).write_data (fid ++ "_chunk") c1 0).2).blocks
      ((c2.length + d.block_size - 1) / d.block_size) (fid ++ "_chunk")).2,
    rfl, rfl, ⟨_, hfind1, rfl⟩, ⟨_, hfind2, rfl⟩, ?_, hids_len1, hids_len2,
    ?_, ?_⟩
  · unfold retrieveFileChunk
    rw [hread]
  · intro bid hbid
    have hfr1 := markAllocate_ids_free_canonical d hwf.1
      ((c1.length + d.block_size - 1) / d.block_size) (fid ++ "_chunk")
      bid hbid
    have hmem1 := dictFind?_mem _ _ _ hfind1
    have hfwf1 := hwf1.2.1.2.1 _ hmem1
    have hnf1 := hfwf1.2 bid hbid
    have hnotin2 : ¬ (bid ∈ (markAllocate
        ((((d.allocate_storage (fid ++ "_chunk") (fid ++ "_chunk") c1.length now1).2).write_data (fid ++ "_chunk") c1 0).2).blocks
        ((c2.length + d.block_size - 1) / d.block_size)
        (fid ++ "_chunk")).2) := fun hc =>
      hnf1.2 (markAllocate_ids_free_canonical _ hcanon1
        ((c2.length + d.block_size - 1) / d.block_size) (fid ++ "_chunk")
        bid hc).2
    refine ⟨hfr1.2, hnotin2, ?_, ?_⟩
    · rw [hD2blocks]
      rcases (writeLoop_getBlock d.block_size
          (markAllocate
            ((((d.allocate_storage (fid ++ "_chunk") (fid ++ "_chunk") c1.length now1).2).write_data (fid ++ "_chunk") c1 0).2).blocks
            ((c2.length + d.block_size - 1) / d.block_size)
            (fid ++ "_chunk")).2
          (markAllocate
            ((((d.allocate_storage (fid ++ "_chunk") (fid ++ "_chunk") c1.length now1).2).write_data (fid ++ "_chunk") c1 0).2).blocks
            ((c2.length + d.block_size - 1) / d.block_size)
            (fid ++ "_chunk")).1
          ((((d.allocate_storage (fid ++ "_chunk") (fid ++ "_chunk") c1.length now1).2).write_data (fid ++ "_chunk") c1 0).2).image
          c2 0 bid).2.2.2.2.2 with h | h
      · rw [h]
        rw [markAllocate_getBlock_canonical _ hcanon1
          ((c2.length + d.block_size - 1) / d.block_size) (fid ++ "_chunk")
          bid hnf1.1]
        rw [if_neg hnotin2]
        exact hnf1.2
      · rw [h]
        exact fun hc => BlockStatus.noConfusion hc
    · intro p hp
      rw [hD2files] at hp
      rcases dictInsert_mem_nodup _ (fid ++ "_chunk") _ hwf1.2.1.1 p hp with
        ⟨hpD1, hpne⟩ | hpeq
      · rw [hD1files] at hpD1
        rcases dictInsert_mem_nodup _ (fid ++ "_chunk") _ hwf.2.1.1 p hpD1 with
          ⟨hpd, _⟩ | hpeq1
        · intro hc
          exact ((hwf.2.1.2.1 p hpd).2 bid hc).2 hfr1.2
        · exact absurd (by rw [hpeq1]) hpne
      · rw [hpeq]
        exact hnotin2
  · rw [hD2alloc, hD1alloc, hids_len1, hids_len2]

/-- Witness for C9 on a concrete 8-block disk of 8-byte blocks: chunk
`[1, 2, 3]` then chunk `[9, 8, 7, 6, 5, 4, 3, 2]` of file "F". -/
theorem C9_witness :
    ∃ bl1 bl2,
      (storeFileChunk (VirtualDisk.init "w" 64 8) "F" [1, 2, 3] (md5hex [1, 2, 3]) 10).1 =
        { success := true, error := none, blocks := some bl1 } ∧
      (storeFileChunk (storeFileChunk (VirtualDisk.init "w" 64 8) "F" [1, 2, 3] (md5hex [1, 2, 3]) 10).2 "F" [9, 8, 7, 6, 5, 4, 3, 2] (md5hex [9, 8, 7, 6, 5, 4, 3, 2]) 20).1 =
        { success := true, error := none, blocks := some bl2 } ∧
      (∃ vf1, dictFind? ((storeFileChunk (VirtualDisk.init "w" 64 8) "F" [1, 2, 3] (md5hex [1, 2, 3]) 10).2).files ("F" ++ "_chunk") = some vf1 ∧
        vf1.blocks = bl1) ∧
      (∃ vf2, dictFind? ((storeFileChunk (storeFileChunk (VirtualDisk.init "w" 64 8) "F" [1, 2, 3] (md5hex [1, 2, 3]) 10).2 "F" [9, 8, 7, 6, 5, 4, 3, 2] (md5hex [9, 8, 7, 6, 5, 4, 3, 2]) 20).2).files ("F" ++ "_chunk") = some vf2 ∧
        vf2.blocks = bl2) ∧
      retrieveFileChunk (storeFileChunk (storeFileChunk (VirtualDisk.init "w" 64 8) "F" [1, 2, 3] (md5hex [1, 2, 3]) 10).2 "F" [9, 8, 7, 6, 5, 4, 3, 2] (md5hex [9, 8, 7, 6, 5, 4, 3, 2]) 20).2 "F" =
        { success := true, error := none,
          chunk_bytes := some [9, 8, 7, 6, 5, 4, 3, 2],
          chunk_hash := some (md5hex [9, 8, 7, 6, 5, 4, 3, 2]),
          size := some (List.length [9, 8, 7, 6, 5, 4, 3, 2]) } ∧
      bl1.length = (List.length [1, 2, 3] + (VirtualDisk.init "w" 64 8).block_size - 1) / (VirtualDisk.init "w" 64 8).block_size ∧
      bl2.length = (List.length [9, 8, 7, 6, 5, 4, 3, 2] + (VirtualDisk.init "w" 64 8).block_size - 1) / (VirtualDisk.init "w" 64 8).block_size ∧
      (∀ bid ∈ bl1,
        (getBlock (VirtualDisk.init "w" 64 8).blocks bid).status = BlockStatus.FREE ∧
        ¬ (bid ∈ bl2) ∧
        ¬ ((getBlock ((storeFileChunk (storeFileChunk (VirtualDisk.init "w" 64 8) "F" [1, 2, 3] (md5hex [1, 2, 3]) 10).2 "F" [9, 8, 7, 6, 5, 4, 3, 2] (md5hex [9, 8, 7, 6, 5, 4, 3, 2]) 20).2).blocks bid).status = BlockStatus.FREE) ∧
        ∀ p ∈ ((storeFileChunk (storeFileChunk (VirtualDisk.init "w" 64 8) "F" [1, 2, 3] (md5hex [1, 2, 3]) 10).2 "F" [9, 8, 7, 6, 5, 4, 3, 2] (md5hex [9, 8, 7, 6, 5, 4, 3, 2]) 20).2).files, ¬ (bid ∈ p.2.blocks)) ∧
      ((storeFileChunk (storeFileChunk (VirtualDisk.init "w" 64 8) "F" [1, 2, 3] (md5hex [1, 2, 3]) 10).2 "F" [9, 8, 7, 6, 5, 4, 3, 2] (md5hex [9, 8, 7, 6, 5, 4, 3, 2]) 20).2).allocated_blocks =
        (VirtualDisk.init "w" 64 8).allocated_blocks + bl1.length + bl2.length :=
  C9_chunk_id_collision_overwrites_and_leaks (VirtualDisk.init "w" 64 8) "F" [1, 2, 3] [9, 8, 7, 6, 5, 4, 3, 2] 10 20
    (by decide) (by decide) (by decide) (by decide) (by decide)
    (storeFileChunk (VirtualDisk.init "w" 64 8) "F" [1, 2, 3] (md5hex [1, 2, 3]) 10).1 (storeFileChunk (VirtualDisk.init "w" 64 8) "F" [1, 2, 3] (md5hex [1, 2, 3]) 10).2 rfl (storeFileChunk (storeFileChunk (VirtualDisk.init "w" 64 8) "F" [1, 2, 3] (md5hex [1, 2, 3]) 10).2 "F" [9, 8, 7, 6, 5, 4, 3, 2] (md5hex [9, 8, 7, 6, 5, 4, 3, 2]) 20).1 (storeFileChunk (storeFileChunk (VirtualDisk.init "w" 64 8) "F" [1, 2, 3] (md5hex [1, 2, 3]) 10).2 "F" [9, 8, 7, 6, 5, 4, 3, 2] (md5hex [9, 8, 7, 6, 5, 4, 3, 2]) 20).2 rfl

/-! ## Decimal representation is injective (distinct chunk indices give
distinct chunk ids) -/

theorem charOfNat_inj (a b : Nat) (ha : a < 55296) (hb : b < 55296)
    (h : Char.ofNat a = Char.ofNat b) : a = b := by
  have h2 := congrArg Char.toNat h
  have e : ∀ (c : Nat), Nat.isValidChar c → (Char.ofNat c).toNat = c := by
    intro c hc
    unfold Char.ofNat Char.toNat Char.ofNatAux
    rw [dif_pos hc]
    rfl
  rw [e a (Or.inl ha), e b (Or.inl hb)] at h2
  exact h2

theorem natOfDigits_decimalDigits (n : Nat) :
    natOfDigits (decimalDigits n) = n := by
  induction n using Nat.strong_induction_on with
  | _ n ih =>
    unfold decimalDigits
    by_cases h : n < 10
    · rw [dif_pos h]
      simp [natOfDigits]
    · rw [dif_neg h]
      show n % 10 + 10 * natOfDigits (decimalDigits (n / 10)) = n
      rw [ih (n / 10) (Nat.div_lt_self (by omega) (by omega))]
      omega

theorem decimalDigits_lt_ten (n : Nat) : ∀ d ∈ decimalDigits n, d < 10 := by
  induction n using Nat.strong_induction_on with
  | _ n ih =>
    unfold decimalDigits
    by_cases h : n < 10
    · rw [dif_pos h]
      intro d hd
      rw [List.mem_singleton] at hd
      omega
    · rw [dif_neg h]
      intro d hd
      rcases List.mem_cons.mp hd with h1 | h1
      · omega
      · exact ih (n / 10) (Nat.div_lt_self (by omega) (by omega)) d h1

theorem digitChar_inj (a b : Nat) (ha : a < 10) (hb : b < 10)
    (h : digitChar a = digitChar b) : a = b := by
  unfold digitChar at h
  have := charOfNat_inj (48 + a) (48 + b) (by omega) (by omega) h
  omega

theorem map_digitChar_inj : ∀ (xs ys : List Nat),
    (∀ d ∈ xs, d < 10) → (∀ d ∈ ys, d < 10) →
    xs.map digitChar = ys.map digitChar → xs = ys := by
  intro xs
  induction xs with
  | nil =>
    intro ys _ _ h
    cases ys with
    | nil => rfl
    | cons y ys => exact absurd h (by simp)
  | cons x xs ih =>
    intro ys hx hy h
    cases ys with
    | nil => exact absurd h (by simp)
    | cons y ys =>
      rw [List.map_cons, List.map_cons] at h
      injection h with hh ht
      have hxy := digitChar_inj x y (hx x (List.mem_cons_self _ _))
        (hy y (List.mem_cons_self _ _)) hh
      rw [hxy, ih ys (fun d hd => hx d (List.mem_cons_of_mem _ hd))
        (fun d hd => hy d (List.mem_cons_of_mem _ hd)) ht]

theorem decimalRepr_inj (a b : Nat) (h : decimalRepr a = decimalRepr b) :
    a = b := by
  unfold decimalRepr at h
  have hdata := congrArg String.data h
  dsimp only at hdata
  have hrev := map_digitChar_inj _ _
    (fun d hd => decimalDigits_lt_ten a d (List.mem_reverse.mp hd))
    (fun d hd => decimalDigits_lt_ten b d (List.mem_reverse.mp hd)) hdata
  have hdd : decimalDigits a = decimalDigits b := by
    have h2 := congrArg List.reverse hrev
    simpa using h2
  have h3 := congrArg natOfDigits hdd
  rwa [natOfDigits_decimalDigits, natOfDigits_decimalDigits] at h3

theorem string_append_cancel_left (a x y : String) (h : a ++ x = a ++ y) :
    x = y := by
  have hd := congrArg String.data h
  rw [String.data_append, String.data_append] at hd
  have hxy := List.append_cancel_left hd
  cases x with
  | mk xd =>
    cases y with
    | mk yd => exact congrArg String.mk hxy

/-! ## The per-chunk loop of distribute_file when no call raises -/

theorem dictInsert_fresh {α : Type} (d : List (String × α)) (k : String)
    (v : α) (h : dictFind? d k = none) : dictInsert d k v = d ++ [(k, v)] := by
  induction d with
  | nil => rfl
  | cons p rest ih =>
    unfold dictFind? at h
    by_cases hp : p.1 = k
    · rw [if_pos hp] at h
      cases h
    · rw [if_neg hp] at h
      unfold dictInsert
      rw [if_neg hp, ih h]
      rfl

theorem dictFind?_append_none {α : Type} (d1 d2 : List (String × α))
    (k : String) (h : dictFind? d1 k = none) :
    dictFind? (d1 ++ d2) k = dictFind? d2 k := by
  induction d1 with
  | nil => rfl
  | cons p rest ih =>
    unfold dictFind? at h
    by_cases hp : p.1 = k
    · rw [if_pos hp] at h
      cases h
    · rw [if_neg hp] at h
      show (if p.1 = k then some p.2 else dictFind? (rest ++ d2) k) =
        dictFind? d2 k
      rw [if_neg hp]
      exact ih h

theorem distLoop_cons (available : List String)
    (callOutcome : Nat → Except String StoreReply) (c : FileChunk)
    (rest : List FileChunk) (i : Nat) (dist : List (String × String))
    (succ : Nat) :
    distLoop available callOutcome (c :: rest) i dist succ =
      match callOutcome i with
      | Except.error e => Except.error e
      | Except.ok r =>
        if r.success then
          distLoop available callOutcome rest (i + 1)
            (dictInsert dist c.chunk_id
              (available.getD (i % available.length) "")) (succ + 1)
        else
          distLoop available callOutcome rest (i + 1) dist succ := rfl

/-- When every remote call of the loop returns a result dict (no exception),
the loop completes, appending one placement entry per successful chunk and
counting the successes: `ok i` tells whether chunk `i`'s store reported
success. -/
theorem distLoop_all_ok (available : List String)
    (callOutcome : Nat → Except String StoreReply) (ok : Nat → Bool) :
    ∀ (cs : List FileChunk) (i0 : Nat) (dist : List (String × String))
      (succ : Nat),
    (∀ j, j < cs.length → ∃ r, callOutcome (i0 + j) = Except.ok r ∧
      r.success = ok (i0 + j)) →
    (∀ c ∈ cs, dictFind? dist c.chunk_id = none) →
    (cs.map (fun c => c.chunk_id)).Nodup →
    distLoop available callOutcome cs i0 dist succ =
      Except.ok (dist ++ placeListIf available ok cs i0,
        succ + okCount ok i0 cs.length) := by
  intro cs
  induction cs with
  | nil =>
    intro i0 dist succ _ _ _
    show Except.ok (dist, succ) = _
    rw [show placeListIf available ok [] i0 = [] from rfl, List.append_nil]
    rfl
  | cons c rest ih =>
    intro i0 dist succ hok hfresh hnd
    obtain ⟨r, hr, hrs⟩ := hok 0 (by simp)
    rw [Nat.add_zero] at hr hrs
    rw [distLoop_cons, hr]
    dsimp only
    rw [List.map_cons, List.nodup_cons] at hnd
    have hok' : ∀ j, j < rest.length → ∃ r', callOutcome (i0 + 1 + j) =
        Except.ok r' ∧ r'.success = ok (i0 + 1 + j) := by
      intro j hj
      have h2 := hok (j + 1) (by simpa using Nat.succ_lt_succ hj)
      rwa [show i0 + (j + 1) = i0 + 1 + j from by omega] at h2
    cases hoki : ok i0 with
    | true =>
      have hrtrue : r.success = true := by rw [hrs, hoki]
      rw [if_pos hrtrue]
      have hins := dictInsert_fresh dist c.chunk_id
        (available.getD (i0 % available.length) "")
        (hfresh c (List.mem_cons_self _ _))
      rw [hins]
      have hfresh' : ∀ c' ∈ rest,
          dictFind? (dist ++ [(c.chunk_id,
            available.getD (i0 % available.length) "")]) c'.chunk_id =
          none := by
        intro c' hc'
        rw [dictFind?_append_none _ _ _
          (hfresh c' (List.mem_cons_of_mem _ hc'))]
        have hne : ¬ (c.chunk_id = c'.chunk_id) := fun he =>
          hnd.1 (by rw [he]; exact List.mem_map_of_mem _ hc')
        show (if c.chunk_id = c'.chunk_id then
          some (available.getD (i0 % available.length) "")
          else dictFind? [] c'.chunk_id) = none
        rw [if_neg hne]
        rfl
      rw [ih (i0 + 1) (dist ++ [(c.chunk_id,
        available.getD (i0 % available.length) "")]) (succ + 1)
        hok' hfresh' hnd.2]
      simp only [placeListIf, okCount, List.length_cons]
      rw [if_pos hoki, if_pos hoki]
      rw [List.append_assoc, List.singleton_append]
      rw [show succ + 1 + okCount ok (i0 + 1) rest.length =
        succ + (1 + okCount ok (i0 + 1) rest.length) from by omega]
    | false =>
      have hrfalse : ¬ (r.success = true) := by
        rw [hrs, hoki]
        exact Bool.false_ne_true
      rw [if_neg hrfalse]
      rw [ih (i0 + 1) dist succ hok'
        (fun c' hc' => hfresh c' (List.mem_cons_of_mem _ hc')) hnd.2]
      simp only [placeListIf, okCount, List.length_cons]
      rw [if_neg (by rw [hoki]; exact Bool.false_ne_true),
        if_neg (by rw [hoki]; exact Bool.false_ne_true)]
      rw [show succ + okCount ok (i0 + 1) rest.length =
        succ + (0 + okCount ok (i0 + 1) rest.length) from by omega]

theorem okCount_true : ∀ (n i0 : Nat), okCount (fun _ => true) i0 n = n := by
  intro n
  induction n with
  | zero => intro i0; rfl
  | succ m ih =>
    intro i0
    rw [show okCount (fun _ => true) i0 (m + 1) =
      1 + okCount (fun _ => true) (i0 + 1) m from rfl, ih]
    omega

theorem placeListIf_length (available : List String) (ok : Nat → Bool) :
    ∀ (cs : List FileChunk) (i0 : Nat),
    (placeListIf available ok cs i0).length = okCount ok i0 cs.length := by
  intro cs
  induction cs with
  | nil => intro i0; rfl
  | cons c rest ih =>
    intro i0
    cases hoki : ok i0 with
    | true =>
      simp only [placeListIf, okCount, List.length_cons]
      rw [if_pos hoki, if_pos hoki, List.length_cons, ih]
      omega
    | false =>
      simp only [placeListIf, okCount, List.length_cons]
      rw [if_neg (by rw [hoki]; exact Bool.false_ne_true),
        if_neg (by rw [hoki]; exact Bool.false_ne_true), ih]
      omega

theorem placeListIf_lookup (available : List String) (ok : Nat → Bool) :
    ∀ (cs : List FileChunk) (i0 idx : Nat) (h : idx < cs.length),
    (cs.map (fun c => c.chunk_id)).Nodup →
    ok (i0 + idx) = true →
    dictFind? (placeListIf available ok cs i0) ((cs.get ⟨idx, h⟩).chunk_id) =
      some (available.getD ((i0 + idx) % available.length) "") := by
  intro cs
  induction cs with
  | nil =>
    intro i0 idx h _ _
    exact absurd h (Nat.not_lt_zero idx)
  | cons c rest ih =>
    intro i0 idx h hnd hok1
    rw [List.map_cons, List.nodup_cons] at hnd
    cases idx with
    | zero =>
      rw [Nat.add_zero] at hok1 ⊢
      simp only [placeListIf]
      rw [if_pos hok1]
      show (if c.chunk_id = c.chunk_id then
        some (available.getD (i0 % available.length) "")
        else dictFind? (placeListIf available ok rest (i0 + 1)) c.chunk_id) =
        some (available.getD (i0 % available.length) "")
      rw [if_pos rfl]
    | succ idx2 =>
      have h2 : idx2 < rest.length := by
        have := Nat.lt_of_succ_lt_succ h
        simpa using this
      have hkey : ¬ (c.chunk_id = (rest.get ⟨idx2, h2⟩).chunk_id) := by
        intro he
        refine hnd.1 ?_
        rw [he]
        exact List.mem_map_of_mem _ (List.get_mem rest idx2 h2)
      have hok2 : ok (i0 + 1 + idx2) = true := by
        rwa [show i0 + 1 + idx2 = i0 + (idx2 + 1) from by omega]
      cases hoki : ok i0 with
      | true =>
        simp only [placeListIf]
        rw [if_pos hoki]
        show (if c.chunk_id = (rest.get ⟨idx2, h2⟩).chunk_id then
          some (available.getD (i0 % available.length) "")
          else dictFind? (placeListIf available ok rest (i0 + 1))
            ((rest.get ⟨idx2, h2⟩).chunk_id)) =
          some (available.getD ((i0 + (idx2 + 1)) % available.length) "")
        rw [if_neg hkey]
        rw [ih (i0 + 1) idx2 h2 hnd.2 hok2]
        rw [show i0 + 1 + idx2 = i0 + (idx2 + 1) from by omega]
      | false =>
        simp only [placeListIf]
        rw [if_neg (by rw [hoki]; exact Bool.false_ne_true)]
        show dictFind? (placeListIf available ok rest (i0 + 1))
          ((rest.get ⟨idx2, h2⟩).chunk_id) =
          some (available.getD ((i0 + (idx2 + 1)) % available.length) "")
        rw [ih (i0 + 1) idx2 h2 hnd.2 hok2]
        rw [show i0 + 1 + idx2 = i0 + (idx2 + 1) from by omega]

theorem placeListIf_values (available : List String) (ok : Nat → Bool)
    (hlen : 0 < available.length) :
    ∀ (cs : List FileChunk) (i0 : Nat),
    ∀ p ∈ placeListIf available ok cs i0, p.2 ∈ available := by
  intro cs
  induction cs with
  | nil =>
    intro i0 p hp
    exact absurd hp (List.not_mem_nil p)
  | cons c rest ih =>
    intro i0 p hp
    by_cases hoki : ok i0 = true
    · rw [show placeListIf available ok (c :: rest) i0 =
        (c.chunk_id, available.getD (i0 % available.length) "") ::
          placeListIf available ok rest (i0 + 1) from by
        simp only [placeListIf]
        rw [if_pos hoki]] at hp
      rcases List.mem_cons.mp hp with h1 | h1
      · rw [h1]
        show available.getD (i0 % available.length) "" ∈ available
        have hm : i0 % available.length < available.length :=
          Nat.mod_lt _ hlen
        rw [List.getD_eq_getElem available "" hm]
        exact List.getElem_mem hm
      · exact ih (i0 + 1) p h1
    · rw [show placeListIf available ok (c :: rest) i0 =
        placeListIf available ok rest (i0 + 1) from by
        simp only [placeListIf]
        rw [if_neg hoki]] at hp
      exact ih (i0 + 1) p hp

/-! ## The chunk list of distribute_file -/

theorem fileChunks_length (fid : String) (data : List Nat) (C : Nat) :
    (fileChunks fid data C).length = chunkCount data.length C := by
  unfold fileChunks
  rw [List.length_map, List.length_range]

theorem fileChunks_get_chunk_id (fid : String) (data : List Nat) (C : Nat)
    (j : Nat) (h : j < (fileChunks fid data C).length) :
    ((fileChunks fid data C).get ⟨j, h⟩).chunk_id =
      fid ++ "_chunk_" ++ decimalRepr j := by
  simp [fileChunks]

theorem fileChunks_ids_nodup (fid : String) (data : List Nat) (C : Nat) :
    ((fileChunks fid data C).map (fun c => c.chunk_id)).Nodup := by
  unfold fileChunks
  rw [List.map_map]
  refine List.Nodup.map ?_ (List.nodup_range _)
  intro a b hab
  simp only [Function.comp] at hab
  exact decimalRepr_inj a b
    (string_append_cancel_left (fid ++ "_chunk_") _ _ hab)

/-- The success branch of `distribute_file`, given the loop's result. -/
theorem distribute_file_ok_eq (self_id : String) (allNodes : List String)
    (filename : String) (file_data : List Nat) (replication_factor : Nat)
    (callOutcome : Nat → Except String StoreReply)
    (hne : ¬ ((allNodes.filter (fun n => ¬ (n = self_id))).length = 0))
    (dist : List (String × String)) (succ : Nat)
    (hloop : distLoop (allNodes.filter (fun n => ¬ (n = self_id))) callOutcome
      (fileChunks (md5hex file_data) file_data (1024 * 1024)) 0 [] 0 =
      Except.ok (dist, succ)) :
    distribute_file self_id allNodes filename file_data replication_factor
        callOutcome =
      DistributeResult.ok
        { file_id := md5hex file_data, filename := filename,
          file_size := file_data.length,
          chunk_count :=
            (fileChunks (md5hex file_data) file_data (1024 * 1024)).length,
          chunks_distributed := succ, chunk_distribution := dist,
          replication_factor := min replication_factor
            (allNodes.filter (fun n => ¬ (n = self_id))).length } := by
  simp only [distribute_file]
  rw [if_neg hne, hloop]

/-! ## Claim C1: round-robin chunk placement -/

/-- C1: distributing an N-byte file (N ≥ 1) over k ≥ 1 candidate nodes (all
known node ids except the initiator) splits it into ceil(N / 2^20) chunks of
chunk size 1 MiB, and when every store_file_chunk RPC returns success, the
result is the success dict whose chunk_count and chunks_distributed equal
that chunk count, whose chunk_distribution map has exactly that many entries
with chunk j (id `file_id ++ "_chunk_" ++ str(j)`) mapped to the candidate
node of index `j mod k`, and every mapped value is a candidate node id. -/
theorem C1_round_robin_distribution (self_id : String) (allNodes : List String)
    (filename : String) (file_data : List Nat) (replication_factor : Nat)
    (callOutcome : Nat → Except String StoreReply)
    (hN : 1 ≤ file_data.length)
    (hk : 0 < (allNodes.filter (fun n => ¬ (n = self_id))).length)
    (hok : ∀ j, j < chunkCount file_data.length (1024 * 1024) →
      ∃ r, callOutcome j = Except.ok r ∧ r.success = true) :
    ∃ res, distribute_file self_id allNodes filename file_data
        replication_factor callOutcome = DistributeResult.ok res ∧
      res.chunk_count = chunkCount file_data.length (1024 * 1024) ∧
      res.chunks_distributed = chunkCount file_data.length (1024 * 1024) ∧
      res.chunk_distribution.length =
        chunkCount file_data.length (1024 * 1024) ∧
      (∀ j, j < chunkCount file_data.length (1024 * 1024) →
        dictFind? res.chunk_distribution
          (md5hex file_data ++ "_chunk_" ++ decimalRepr j) =
          some ((allNodes.filter (fun n => ¬ (n = self_id))).getD
            (j % (allNodes.filter (fun n => ¬ (n = self_id))).length) "")) ∧
      (∀ p ∈ res.chunk_distribution,
        p.2 ∈ allNodes.filter (fun n => ¬ (n = self_id))) := by
  have hlen := fileChunks_length (md5hex file_data) file_data (1024 * 1024)
  have hnd := fileChunks_ids_nodup (md5hex file_data) file_data (1024 * 1024)
  have hok' : ∀ j,
      j < (fileChunks (md5hex file_data) file_data (1024 * 1024)).length →
      ∃ r, callOutcome (0 + j) = Except.ok r ∧
        r.success = (fun _ => true) (0 + j) := by
    intro j hj
    obtain ⟨r, hr, hrs⟩ := hok j (by rwa [hlen] at hj)
    exact ⟨r, by rwa [Nat.zero_add], hrs⟩
  have hfresh : ∀ c ∈ fileChunks (md5hex file_data) file_data (1024 * 1024),
      dictFind? ([] : List (String × String)) c.chunk_id = none := by
    intro c _
    rfl
  have hloop := distLoop_all_ok
    (allNodes.filter (fun n => ¬ (n = self_id))) callOutcome (fun _ => true)
    (fileChunks (md5hex file_data) file_data (1024 * 1024)) 0 [] 0
    hok' hfresh hnd
  rw [List.nil_append, okCount_true, Nat.zero_add] at hloop
  have hne : ¬ ((allNodes.filter (fun n => ¬ (n = self_id))).length = 0) := by
    omega
  have hmain := distribute_file_ok_eq self_id allNodes filename file_data
    replication_factor callOutcome hne _ _ hloop
  refine ⟨_, hmain, hlen, hlen, ?_, ?_, ?_⟩
  · show (placeListIf (allNodes.filter (fun n => ¬ (n = self_id)))
      (fun _ => true)
      (fileChunks (md5hex file_data) file_data (1024 * 1024)) 0).length = _
    rw [placeListIf_length, okCount_true]
    exact hlen
  · intro j hj
    have hj2 : j < (fileChunks (md5hex file_data) file_data
        (1024 * 1024)).length := by
      rwa [hlen]
    have hl := placeListIf_lookup
      (allNodes.filter (fun n => ¬ (n = self_id))) (fun _ => true)
      (fileChunks (md5hex file_data) file_data (1024 * 1024)) 0 j hj2 hnd rfl
    rw [fileChunks_get_chunk_id, Nat.zero_add] at hl
    exact hl
  · intro p hp
    exact placeListIf_values _ _ hk _ 0 p hp

/-- Witness for C1: file `[5]` (one 1-byte chunk) distributed from node "A"
over nodes ["A", "B"]; the single candidate is "B" and the single chunk goes
to it. -/
theorem C1_witness :
    ∃ res, distribute_file "A" ["A", "B"] "f.txt" [5] 2
        (fun _ => Except.ok
          { success := true, error := none, blocks := some [0] }) =
      DistributeResult.ok res ∧
      res.chunk_count = chunkCount (List.length [5]) (1024 * 1024) ∧
      res.chunks_distributed = chunkCount (List.length [5]) (1024 * 1024) ∧
      res.chunk_distribution.length =
        chunkCount (List.length [5]) (1024 * 1024) ∧
      (∀ j, j < chunkCount (List.length [5]) (1024 * 1024) →
        dictFind? res.chunk_distribution
          (md5hex [5] ++ "_chunk_" ++ decimalRepr j) =
          some ((List.filter (fun n => ¬ (n = "A")) ["A", "B"]).getD
            (j % (List.filter (fun n => ¬ (n = "A")) ["A", "B"]).length)
            "")) ∧
      (∀ p ∈ res.chunk_distribution,
        p.2 ∈ (["A", "B"] : List String).filter (fun n => ¬ (n = "A"))) :=
  C1_round_robin_distribution "A" ["A", "B"] "f.txt" [5] 2
    (fun _ => Except.ok { success := true, error := none, blocks := some [0] })
    (by decide) (by decide)
    (fun j _ =>
      ⟨{ success := true, error := none, blocks := some [0] }, rfl, rfl⟩)

/-! ## Claim C4: per-chunk failure handling -/

/-- The loop aborts at the first per-chunk call that raises: if calls before
index `j` return result dicts and the call for index `j` raises `e`, the
whole loop evaluates to that exception. -/
theorem distLoop_first_error (available : List String)
    (callOutcome : Nat → Except String StoreReply) :
    ∀ (cs : List FileChunk) (i0 : Nat) (dist : List (String × String))
      (succ j : Nat), j < cs.length → ∀ (e : String),
    (∀ i, i < j → ∃ r, callOutcome (i0 + i) = Except.ok r) →
    callOutcome (i0 + j) = Except.error e →
    distLoop available callOutcome cs i0 dist succ = Except.error e := by
  intro cs
  induction cs with
  | nil =>
    intro i0 dist succ j hj e _ _
    exact absurd hj (Nat.not_lt_zero j)
  | cons c rest ih =>
    intro i0 dist succ j hj e hbefore herr
    cases j with
    | zero =>
      rw [Nat.add_zero] at herr
      rw [distLoop_cons, herr]
    | succ j2 =>
      obtain ⟨r, hr⟩ := hbefore 0 (Nat.succ_pos j2)
      rw [Nat.add_zero] at hr
      rw [distLoop_cons, hr]
      dsimp only
      have hj2 : j2 < rest.length := by
        have h2 := Nat.lt_of_succ_lt_succ hj
        simpa using h2
      have hbefore2 : ∀ i, i < j2 →
          ∃ r', callOutcome (i0 + 1 + i) = Except.ok r' := by
        intro i hi
        obtain ⟨r', hr'⟩ := hbefore (i + 1) (by omega)
        exact ⟨r', by rwa [show i0 + (i + 1) = i0 + 1 + i from by omega] at hr'⟩
      have herr2 : callOutcome (i0 + 1 + j2) = Except.error e := by
        rwa [show i0 + (j2 + 1) = i0 + 1 + j2 from by omega] at herr
      by_cases hs : r.success = true
      · rw [if_pos hs]
        exact ih (i0 + 1) _ _ j2 hj2 e hbefore2 herr2
      · rw [if_neg hs]
        exact ih (i0 + 1) _ _ j2 hj2 e hbefore2 herr2

/-- The except-clause branch of `distribute_file`, given a raising loop. -/
theorem distribute_file_error_eq (self_id : String) (allNodes : List String)
    (filename : String) (file_data : List Nat) (replication_factor : Nat)
    (callOutcome : Nat → Except String StoreReply)
    (hne : ¬ ((allNodes.filter (fun n => ¬ (n = self_id))).length = 0))
    (e : String)
    (hloop : distLoop (allNodes.filter (fun n => ¬ (n = self_id))) callOutcome
      (fileChunks (md5hex file_data) file_data (1024 * 1024)) 0 [] 0 =
      Except.error e) :
    distribute_file self_id allNodes filename file_data replication_factor
        callOutcome = DistributeResult.failure e := by
  simp only [distribute_file]
  rw [if_neg hne, hloop]

/-- Counterexample to C4 as stated: with one candidate node and a one-chunk
file, a per-chunk remote call that raises (here: an RPC timeout, which
`call_remote_method` raises as an exception) makes `distribute_file` abort
with the except-clause failure dict — no partial result is returned. -/
theorem C4_counterexample_exception_aborts :
    distribute_file "A" ["A", "B"] "f.txt" [7] 2
      (fun _ => Except.error "RPC call to store_file_chunk timed out") =
      DistributeResult.failure "RPC call to store_file_chunk timed out" ∧
    ∀ r, ¬ (distribute_file "A" ["A", "B"] "f.txt" [7] 2
      (fun _ => Except.error "RPC call to store_file_chunk timed out") =
      DistributeResult.ok r) := by
  refine ⟨rfl, ?_⟩
  intro r hr
  rw [show distribute_file "A" ["A", "B"] "f.txt" [7] 2
      (fun _ => Except.error "RPC call to store_file_chunk timed out") =
      DistributeResult.failure "RPC call to store_file_chunk timed out"
    from rfl] at hr
  exact DistributeResult.noConfusion hr

/-- C4 (amended): over k ≥ 1 candidate nodes, the two failure modes differ.
(a) When every per-chunk remote call returns a result dict (`ok j` recording
whether chunk j's store reported success), failed stores are skipped and the
remaining chunks are still attempted: the result is the success dict whose
chunks_distributed counts exactly the successful stores and whose partial
placement map holds exactly the successful chunks, each on its round-robin
node.  (b) When the remote call for some chunk j raises an exception
(timeout, send failure, remote error — all re-raised by call_remote_method)
after the earlier calls returned result dicts, distribute_file aborts with
the failure dict carrying that exception's message. -/
theorem C4_result_failures_continue_exceptions_abort (self_id : String)
    (allNodes : List String) (filename : String) (file_data : List Nat)
    (replication_factor : Nat)
    (callOutcome : Nat → Except String StoreReply) (ok : Nat → Bool)
    (hk : 0 < (allNodes.filter (fun n => ¬ (n = self_id))).length) :
    ((∀ j, j < chunkCount file_data.length (1024 * 1024) →
        ∃ r, callOutcome j = Except.ok r ∧ r.success = ok j) →
      ∃ res, distribute_file self_id allNodes filename file_data
          replication_factor callOutcome = DistributeResult.ok res ∧
        res.chunk_count = chunkCount file_data.length (1024 * 1024) ∧
        res.chunks_distributed =
          okCount ok 0 (chunkCount file_data.length (1024 * 1024)) ∧
        res.chunk_distribution.length =
          okCount ok 0 (chunkCount file_data.length (1024 * 1024)) ∧
        (∀ j, j < chunkCount file_data.length (1024 * 1024) → ok j = true →
          dictFind? res.chunk_distribution
            (md5hex file_data ++ "_chunk_" ++ decimalRepr j) =
            some ((allNodes.filter (fun n => ¬ (n = self_id))).getD
              (j % (allNodes.filter (fun n => ¬ (n = self_id))).length) "")) ∧
        (∀ p ∈ res.chunk_distribution,
          p.2 ∈ allNodes.filter (fun n => ¬ (n = self_id)))) ∧
    (∀ j e, j < chunkCount file_data.length (1024 * 1024) →
      (∀ i, i < j → ∃ r, callOutcome i = Except.ok r) →
      callOutcome j = Except.error e →
      distribute_file self_id allNodes filename file_data replication_factor
        callOutcome = DistributeResult.failure e) := by
  have hlen := fileChunks_length (md5hex file_data) file_data (1024 * 1024)
  have hnd := fileChunks_ids_nodup (md5hex file_data) file_data (1024 * 1024)
  have hne : ¬ ((allNodes.filter (fun n => ¬ (n = self_id))).length = 0) := by
    omega
  constructor
  · intro hA
    have hok' : ∀ j,
        j < (fileChunks (md5hex file_data) file_data (1024 * 1024)).length →
        ∃ r, callOutcome (0 + j) = Except.ok r ∧
          r.success = ok (0 + j) := by
      intro j hj
      obtain ⟨r, hr, hrs⟩ := hA j (by rwa [hlen] at hj)
      exact ⟨r, by rwa [Nat.zero_add], by rwa [Nat.zero_add]⟩
    have hfresh : ∀ c ∈ fileChunks (md5hex file_data) file_data (1024 * 1024),
        dictFind? ([] : List (String × String)) c.chunk_id = none := by
      intro c _
      rfl
    have hloop := distLoop_all_ok
      (allNodes.filter (fun n => ¬ (n = self_id))) callOutcome ok
      (fileChunks (md5hex file_data) file_data (1024 * 1024)) 0 [] 0
      hok' hfresh hnd
    rw [List.nil_append, Nat.zero_add] at hloop
    have hmain := distribute_file_ok_eq self_id allNodes filename file_data
      replication_factor callOutcome hne _ _ hloop
    refine ⟨_, hmain, hlen, ?_, ?_, ?_, ?_⟩
    · show okCount ok 0
        (fileChunks (md5hex file_data) file_data (1024 * 1024)).length = _
      rw [hlen]
    · show (placeListIf (allNodes.filter (fun n => ¬ (n = self_id))) ok
        (fileChunks (md5hex file_data) file_data (1024 * 1024)) 0).length = _
      rw [placeListIf_length, hlen]
    · intro j hj hokj
      have hj2 : j < (fileChunks (md5hex file_data) file_data
          (1024 * 1024)).length := by
        rwa [hlen]
      have hl := placeListIf_lookup
        (allNodes.filter (fun n => ¬ (n = self_id))) ok
        (fileChunks (md5hex file_data) file_data (1024 * 1024)) 0 j hj2 hnd
        (by rwa [Nat.zero_add])
      rw [fileChunks_get_chunk_id, Nat.zero_add] at hl
      exact hl
    · intro p hp
      exact placeListIf_values _ _ hk _ 0 p hp
  · intro j e hj hbefore herr
    have hj2 : j < (fileChunks (md5hex file_data) file_data
        (1024 * 1024)).length := by
      rwa [hlen]
    have hbefore2 : ∀ i, i < j → ∃ r, callOutcome (0 + i) = Except.ok r := by
      intro i hi
      obtain ⟨r, hr⟩ := hbefore i hi
      exact ⟨r, by rwa [Nat.zero_add]⟩
    have herr2 : callOutcome (0 + j) = Except.error e := by
      rwa [Nat.zero_add]
    exact distribute_file_error_eq self_id allNodes filename file_data
      replication_factor callOutcome hne e
      (distLoop_first_error (allNodes.filter (fun n => ¬ (n = self_id)))
        callOutcome (fileChunks (md5hex file_data) file_data (1024 * 1024))
        0 [] 0 j hj2 e hbefore2 herr2)

/-- Witness for C4 on concrete inputs: node "A" distributing `[7]` over
["A", "B"] with a store that reports insufficient storage as a result dict
(`ok` constantly false). -/
theorem C4_witness :
    ((∀ j, j < chunkCount (List.length [7]) (1024 * 1024) →
        ∃ r, (fun _ : Nat => (Except.ok
            { success := false, error := some "Insufficient storage",
              blocks := none } : Except String StoreReply)) j = Except.ok r ∧
          r.success = (fun _ : Nat => false) j) →
      ∃ res, distribute_file "A" ["A", "B"] "f.txt" [7] 2
          (fun _ : Nat => (Except.ok
            { success := false, error := some "Insufficient storage",
              blocks := none } : Except String StoreReply)) =
          DistributeResult.ok res ∧
        res.chunk_count = chunkCount (List.length [7]) (1024 * 1024) ∧
        res.chunks_distributed =
          okCount (fun _ => false) 0
            (chunkCount (List.length [7]) (1024 * 1024)) ∧
        res.chunk_distribution.length =
          okCount (fun _ => false) 0
            (chunkCount (List.length [7]) (1024 * 1024)) ∧
        (∀ j, j < chunkCount (List.length [7]) (1024 * 1024) →
          (fun _ : Nat => false) j = true →
          dictFind? res.chunk_distribution
            (md5hex [7] ++ "_chunk_" ++ decimalRepr j) =
            some ((List.filter (fun n => ¬ (n = "A")) ["A", "B"]).getD
              (j % (List.filter (fun n => ¬ (n = "A")) ["A", "B"]).length)
              "")) ∧
        (∀ p ∈ res.chunk_distribution,
          p.2 ∈ List.filter (fun n => ¬ (n = "A")) ["A", "B"])) ∧
    (∀ j e, j < chunkCount (List.length [7]) (1024 * 1024) →
      (∀ i, i < j → ∃ r, (fun _ : Nat => (Except.ok
          { success := false, error := some "Insufficient storage",
            blocks := none } : Except String StoreReply)) i = Except.ok r) →
      (fun _ : Nat => (Except.ok
          { success := false, error := some "Insufficient storage",
            blocks := none } : Except String StoreReply)) j = Except.error e →
      distribute_file "A" ["A", "B"] "f.txt" [7] 2
        (fun _ : Nat => (Except.ok
          { success := false, error := some "Insufficient storage",
            blocks := none } : Except String StoreReply)) =
        DistributeResult.failure e) :=
  C4_result_failures_continue_exceptions_abort "A" ["A", "B"] "f.txt" [7] 2
    (fun _ : Nat => (Except.ok
      { success := false, error := some "Insufficient storage",
        blocks := none } : Except String StoreReply))
    (fun _ => false) (by decide)

end CloudSim
